import Mathlib

/-!
Verification of the signed-link / slot-availability scheduling core.

Shallow embedding of:
  * `src/lib/sign.ts`               — HMAC-signed capability links
  * `src/lib/manage-link-alias.ts`  — short-alias store with lazy expiry
  * `src/lib/slots.ts`              — slot engine and availability resolver
  * `src/app/api/reschedule/route.ts` — reschedule PATCH handler

Strings are modelled as `List Char` (`Str`), instants as `Int` epoch
milliseconds.  Platform primitives that the source calls but that are not
part of the repository (`JSON.stringify`/`JSON.parse`, `Buffer`
base64url, `createHmac`, `Date.parse`/`toISOString`) are collected in a
`JsModel` record together with the contracts those platform functions
guarantee and that the source relies on; `refModel` is a concrete
executable instance of that record used to evaluate theorems on
concrete inputs.  A thrown JavaScript exception is modelled with
`Except`, a `null` return with `Option`.
-/

set_option linter.unusedVariables false

namespace Scheduling

/-- JavaScript strings, modelled as lists of characters. -/
abbrev Str := List Char

/-- `String.prototype.split(sep)` for a one-character separator — splits
on every occurrence; always returns at least one (possibly empty) part. -/
def splitOnChar (sep : Char) : Str → List Str
  | [] => [[]]
  | c :: rest =>
    match splitOnChar sep rest with
    | [] => [[]]
    | t :: ts => if c = sep then [] :: t :: ts else (c :: t) :: ts

/-- `token.split(".")`. -/
def splitDot (s : Str) : List Str := splitOnChar '.' s

/-- `src/lib/sign.ts` — `SignedLinkPayload`.  Optional fields are `Option`;
the required fields are plain strings (the empty string models the
falsy values the source guards against). -/
structure SignedLinkPayload where
  action : Str
  meetingTypeId : Str
  eventId : Str
  guestEmail : Str
  expiresAt : Str
  calendarId : Option Str := none
  guestName : Option Str := none
  slotStart : Option Str := none
  slotEnd : Option Str := none
  deriving DecidableEq, Repr

/-- Platform primitives used by `src/lib/sign.ts` and
`src/lib/manage-link-alias.ts`, with the contracts the Node.js runtime
guarantees for them.  `b64e` stands for
`Buffer.from(s, "utf8").toString("base64url")` and `b64d` for the
(lenient, never-throwing) `Buffer.from(s, "base64url")` decode;
`hmac k m` is the raw `createHmac("sha256", k).update(m).digest()`
byte string. -/
structure JsModel where
  stringifyPayload : SignedLinkPayload → Str
  parsePayload : Str → Option SignedLinkPayload
  b64e : Str → Str
  b64d : Str → Str
  hmac : Str → Str → Str
  dateParse : Str → Option Int
  toISO : Int → Str
  parse_stringify : ∀ p, parsePayload (stringifyPayload p) = some p
  stringify_ne : ∀ p, stringifyPayload p ≠ []
  b64_round : ∀ s, b64d (b64e s) = s
  b64_nodot : ∀ s, '.' ∉ b64e s
  b64e_eq_nil : ∀ s, b64e s = [] → s = []
  hmac_ne : ∀ k m, hmac k m ≠ []
  dateParse_toISO : ∀ t, dateParse (toISO t) = some t

/-- The process environment as far as `sign.ts` reads it. -/
structure SignEnv where
  signingSecret : Option Str

/-- `sign.ts` — `getSigningSecret`; throws when the secret is absent. -/
def getSigningSecret (env : SignEnv) : Except Str Str :=
  match env.signingSecret with
  | none => .error "Missing SIGNING_SECRET environment variable for link signing.".data
  | some s => .ok s

/-- `sign.ts` — `signLinkPayload`. -/
def signLinkPayload (M : JsModel) (env : SignEnv) (payload : SignedLinkPayload) :
    Except Str Str :=
  match getSigningSecret env with
  | .error e => .error e
  | .ok secret =>
    let payloadEncoded := M.b64e (M.stringifyPayload payload)
    let signatureEncoded := M.b64e (M.hmac secret payloadEncoded)
    .ok (payloadEncoded ++ '.' :: signatureEncoded)

/-- `sign.ts` — `decodeSignedLinkPayload`: parses the payload segment
without any signature or expiry check. -/
def decodeSignedLinkPayload (M : JsModel) (token : Str) : Option SignedLinkPayload :=
  if token = [] then none
  else
    let payloadEncoded := (splitDot token).headD []
    if payloadEncoded = [] then none
    else M.parsePayload (M.b64d payloadEncoded)

/-- `sign.ts` — `verifySignedLink`.  `Except.error` models the exception
thrown when the signing secret is missing; `.ok none` models a `null`
return.  `now` is the ambient `Date.now()`. -/
def verifySignedLink (M : JsModel) (env : SignEnv) (now : Int) (token : Str) :
    Except Str (Option SignedLinkPayload) :=
  if token = [] then .ok none
  else
    let parts := splitDot token
    let payloadEncoded := parts.headD []
    let signatureEncoded := (parts.drop 1).headD []
    if payloadEncoded = [] ∨ signatureEncoded = [] then .ok none
    else
      match getSigningSecret env with
      | .error e => .error e
      | .ok secret =>
        let expectedSignature := M.hmac secret payloadEncoded
        let providedSignature := M.b64d signatureEncoded
        if expectedSignature.length ≠ providedSignature.length then .ok none
        else if expectedSignature ≠ providedSignature then .ok none
        else
          match decodeSignedLinkPayload M token with
          | none => .ok none
          | some payload =>
            match M.dateParse payload.expiresAt with
            | none => .ok none
            | some expiresAt =>
              if expiresAt < now then .ok none
              else if payload.action = [] ∨ payload.meetingTypeId = [] ∨
                  payload.eventId = [] ∨ payload.guestEmail = [] then .ok none
              else .ok (some payload)

/-- `sign.ts` — `DEFAULT_MANAGEMENT_LINK_TTL_MS` (7 days). -/
def DEFAULT_MANAGEMENT_LINK_TTL_MS : Int := 1000 * 60 * 60 * 24 * 7

/-- `sign.ts` — the `Omit<SignedLinkPayload, "action" | "expiresAt">` input. -/
structure LinkPayloadInput where
  meetingTypeId : Str
  eventId : Str
  guestEmail : Str
  calendarId : Option Str := none
  guestName : Option Str := none
  slotStart : Option Str := none
  slotEnd : Option Str := none
  deriving DecidableEq, Repr

/-- `sign.ts` — `SignedLinkToken`. -/
structure SignedLinkToken where
  token : Str
  expiresAt : Str
  deriving DecidableEq, Repr

/-- `sign.ts` — `generateSignedLink`; `now` is `Date.now()` at the call. -/
def generateSignedLink (M : JsModel) (env : SignEnv) (now : Int)
    (action : Str) (payload : LinkPayloadInput)
    (ttlMs : Int := DEFAULT_MANAGEMENT_LINK_TTL_MS) :
    Except Str SignedLinkToken :=
  let expiresAt := M.toISO (now + ttlMs)
  match signLinkPayload M env
      { action := action
        meetingTypeId := payload.meetingTypeId
        eventId := payload.eventId
        guestEmail := payload.guestEmail
        expiresAt := expiresAt
        calendarId := payload.calendarId
        guestName := payload.guestName
        slotStart := payload.slotStart
        slotEnd := payload.slotEnd } with
  | .error e => .error e
  | .ok token => .ok { token := token, expiresAt := expiresAt }

/-- Result record of `createManagementLinks`. -/
structure ManagementLinks where
  cancel : SignedLinkToken
  reschedule : SignedLinkToken
  manage : SignedLinkToken
  deriving DecidableEq, Repr

/-- `sign.ts` — `createManagementLinks`: three `generateSignedLink` calls
with one ambient instant `now`. -/
def createManagementLinks (M : JsModel) (env : SignEnv) (now : Int)
    (payload : LinkPayloadInput)
    (ttlMs : Int := DEFAULT_MANAGEMENT_LINK_TTL_MS) :
    Except Str ManagementLinks :=
  match generateSignedLink M env now "cancel".data payload ttlMs,
      generateSignedLink M env now "reschedule".data payload ttlMs,
      generateSignedLink M env now "manage".data payload ttlMs with
  | .ok cancel, .ok reschedule, .ok manage =>
    .ok { cancel := cancel, reschedule := reschedule, manage := manage }
  | .error e, _, _ => .error e
  | _, .error e, _ => .error e
  | _, _, .error e => .error e

/-! ### Concrete reference instance of the platform primitives

Executable stand-ins for the Node.js primitives, satisfying exactly the
contracts recorded in `JsModel`.  They are not byte-for-byte JSON / real
base64url / SHA-256 (those live outside the repository); they are
injective codecs with the same observable interface, used to run the
theorems on concrete inputs. -/

/-- Backslash-escapes `';'` and `'\\'`; used by the reference
field serializer. -/
def escSemi : Str → Str
  | [] => []
  | c :: cs =>
    if c = '\\' ∨ c = ';' then '\\' :: c :: escSemi cs else c :: escSemi cs

/-- One serialized field: escaped content terminated by `';'`. -/
def encField (s : Str) : Str := escSemi s ++ [';']

/-- Reads one escaped field up to its unescaped `';'` terminator,
returning the field and the remaining input. -/
def decField : Str → Option (Str × Str)
  | [] => none
  | c :: cs =>
    if c = '\\' then
      match cs with
      | [] => none
      | d :: ds => (decField ds).map (fun p => (d :: p.1, p.2))
    else if c = ';' then some ([], cs)
    else (decField cs).map (fun p => (c :: p.1, p.2))

/-- Serialized optional field: `'n'` for `none`, `'s'` plus a field. -/
def encOptField : Option Str → Str
  | none => ['n']
  | some s => 's' :: encField s

/-- Reads one serialized optional field. -/
def decOptField : Str → Option (Option Str × Str)
  | [] => none
  | c :: cs =>
    if c = 'n' then some (none, cs)
    else if c = 's' then (decField cs).map (fun p => (some p.1, p.2))
    else none

/-- Reference `JSON.stringify` for `SignedLinkPayload`: an injective
field-by-field serialization. -/
def refStringify (p : SignedLinkPayload) : Str :=
  encField p.action ++ encField p.meetingTypeId ++ encField p.eventId ++
    encField p.guestEmail ++ encField p.expiresAt ++
    encOptField p.calendarId ++ encOptField p.guestName ++
    encOptField p.slotStart ++ encOptField p.slotEnd

/-- Reference `JSON.parse` (plus the unchecked cast to
`SignedLinkPayload`): inverse of `refStringify` on its image, `none` on
anything else. -/
def refParse (s : Str) : Option SignedLinkPayload := do
  let (action, s) ← decField s
  let (meetingTypeId, s) ← decField s
  let (eventId, s) ← decField s
  let (guestEmail, s) ← decField s
  let (expiresAt, s) ← decField s
  let (calendarId, s) ← decOptField s
  let (guestName, s) ← decOptField s
  let (slotStart, s) ← decOptField s
  let (slotEnd, s) ← decOptField s
  if s = [] then
    return { action := action, meetingTypeId := meetingTypeId,
             eventId := eventId, guestEmail := guestEmail,
             expiresAt := expiresAt, calendarId := calendarId,
             guestName := guestName, slotStart := slotStart,
             slotEnd := slotEnd }
  else none

/-- Reference base64url encode: an injective, dot-free escape code
(`'!'` doubles itself, `'.'` becomes `"!d"`). -/
def escDot : Str → Str
  | [] => []
  | c :: cs =>
    if c = '!' then '!' :: '!' :: escDot cs
    else if c = '.' then '!' :: 'd' :: escDot cs
    else c :: escDot cs

/-- Reference base64url decode: total (Node's `Buffer.from(_, "base64url")`
never throws), inverse of `escDot` on its image. -/
def unescDot : Str → Str
  | [] => []
  | c :: cs =>
    if c = '!' then
      match cs with
      | [] => []
      | d :: ds => (if d = '!' then '!' else if d = 'd' then '.' else d) :: unescDot ds
    else c :: unescDot cs

/-- Decimal digit characters. -/
def digitChar : Nat → Char
  | 0 => '0' | 1 => '1' | 2 => '2' | 3 => '3' | 4 => '4'
  | 5 => '5' | 6 => '6' | 7 => '7' | 8 => '8' | _ => '9'

/-- Value of a decimal digit character. -/
def digitVal (c : Char) : Option Nat :=
  if c = '0' then some 0 else if c = '1' then some 1
  else if c = '2' then some 2 else if c = '3' then some 3
  else if c = '4' then some 4 else if c = '5' then some 5
  else if c = '6' then some 6 else if c = '7' then some 7
  else if c = '8' then some 8 else if c = '9' then some 9 else none

/-- Little-endian decimal digits of `n`, fuel-bounded (fuel `n + 1`
always suffices). -/
def encNatFuel : Nat → Nat → Str
  | 0, _ => []
  | fuel + 1, n =>
    if n < 10 then [digitChar n]
    else digitChar (n % 10) :: encNatFuel fuel (n / 10)

/-- Little-endian decimal rendering of a natural number. -/
def encNat (n : Nat) : Str := encNatFuel (n + 1) n

/-- Reads a whole string of little-endian decimal digits. -/
def decNat : Str → Option Nat
  | [] => none
  | [c] => digitVal c
  | c :: cs =>
    match digitVal c, decNat cs with
    | some d, some v => some (d + 10 * v)
    | _, _ => none

/-- Reference `Date.prototype.toISOString`: a sign tag plus decimal
digits of the epoch-millisecond instant. -/
def refToISO : Int → Str
  | Int.ofNat n => 'P' :: encNat n
  | Int.negSucc n => 'N' :: encNat n

/-- Reference `Date.parse`: inverse of `refToISO` on its image, `none`
(NaN) on anything else. -/
def refDateParse : Str → Option Int
  | [] => none
  | c :: cs =>
    if c = 'P' then (decNat cs).map Int.ofNat
    else if c = 'N' then (decNat cs).map Int.negSucc
    else none

/-- Reference HMAC digest: deterministic, never empty (a SHA-256 digest
is always 32 bytes). -/
def refHmac (key msg : Str) : Str := 'H' :: (key ++ msg)

/-- `decField` undoes `encField`, leaving the rest of the input. -/
theorem decField_encField (s rest : Str) :
    decField (encField s ++ rest) = some (s, rest) := by
  induction s with
  | nil =>
    rw [encField, escSemi]
    rw [show ([] : Str) ++ [';'] ++ rest = ';' :: rest by simp]
    simp [decField.eq_def]
  | cons c cs ih =>
    by_cases hc : c = '\\' ∨ c = ';'
    · rw [encField, escSemi, if_pos hc]
      rw [show ('\\' :: c :: escSemi cs) ++ [';'] ++ rest
            = '\\' :: c :: (encField cs ++ rest) by simp [encField]]
      rw [decField.eq_def]
      simp [ih]
    · push_neg at hc
      rw [encField, escSemi, if_neg (by tauto : ¬(c = '\\' ∨ c = ';'))]
      rw [show (c :: escSemi cs) ++ [';'] ++ rest
            = c :: (encField cs ++ rest) by simp [encField]]
      rw [decField.eq_def]
      simp [hc.1, hc.2, ih]

/-- `decOptField` undoes `encOptField`. -/
theorem decOptField_encOptField (o : Option Str) (rest : Str) :
    decOptField (encOptField o ++ rest) = some (o, rest) := by
  cases o with
  | none => simp [encOptField, decOptField]
  | some s => simp [encOptField, decOptField, decField_encField]

/-- `refParse` undoes `refStringify`. -/
theorem refParse_refStringify (p : SignedLinkPayload) :
    refParse (refStringify p) = some p := by
  have hof : ∀ o, decOptField (encOptField o) = some (o, []) := fun o => by
    simpa using decOptField_encOptField o []
  simp only [refStringify, List.append_assoc, refParse, Option.bind_eq_bind,
    decField_encField, Option.some_bind, decOptField_encOptField, hof]
  simp

/-- `unescDot` undoes `escDot`. -/
theorem unescDot_escDot (s : Str) : unescDot (escDot s) = s := by
  induction s with
  | nil => simp [escDot, unescDot]
  | cons c cs ih =>
    by_cases h1 : c = '!'
    · simp [escDot, unescDot, h1, ih]
    · by_cases h2 : c = '.'
      · simp [escDot, unescDot, h1, h2, ih]
      · rw [escDot, if_neg h1, if_neg h2, unescDot.eq_def]
        simp [h1, ih]

/-- `escDot` never emits a dot. -/
theorem not_mem_escDot (s : Str) : '.' ∉ escDot s := by
  induction s with
  | nil => simp [escDot]
  | cons c cs ih =>
    by_cases h1 : c = '!'
    · simp [escDot, h1, List.mem_cons, ih]
    · by_cases h2 : c = '.'
      · simp [escDot, h1, h2, List.mem_cons, ih]
      · simp [escDot, h1, h2, List.mem_cons, ih]
        exact fun h => h2 h.symm

/-- `escDot` maps only the empty string to the empty string. -/
theorem escDot_eq_nil (s : Str) : escDot s = [] → s = [] := by
  cases s with
  | nil => simp
  | cons c cs =>
    by_cases h1 : c = '!' <;> by_cases h2 : c = '.' <;> simp [escDot, h1, h2]

/-- `digitVal` undoes `digitChar` below 10. -/
theorem digitVal_digitChar (d : Nat) (hd : d < 10) :
    digitVal (digitChar d) = some d := by
  interval_cases d <;> rfl

/-- `decNat` undoes `encNatFuel` when the fuel covers the value. -/
theorem decNat_encNatFuel (fuel n : Nat) (h : n < fuel) :
    decNat (encNatFuel fuel n) = some n := by
  induction fuel generalizing n with
  | zero => omega
  | succ fuel ih =>
    by_cases hn : n < 10
    · simp [encNatFuel, hn, decNat, digitVal_digitChar n hn]
    · have hrec : decNat (encNatFuel fuel (n / 10)) = some (n / 10) := ih _ (by omega)
      have hne : encNatFuel fuel (n / 10) ≠ [] := by
        cases fuel with
        | zero => omega
        | succ f =>
          by_cases h10 : n / 10 < 10 <;> simp [encNatFuel, h10]
      simp only [encNatFuel, if_neg hn]
      match he : encNatFuel fuel (n / 10) with
      | [] => exact absurd he hne
      | e :: es =>
        rw [he] at hrec
        simp only [decNat, digitVal_digitChar (n % 10) (by omega), hrec]
        congr 1
        omega

/-- `decNat` undoes `encNat`. -/
theorem decNat_encNat (n : Nat) : decNat (encNat n) = some n :=
  decNat_encNatFuel (n + 1) n (Nat.lt_succ_self n)

/-- `refDateParse` undoes `refToISO`. -/
theorem refDateParse_refToISO (t : Int) : refDateParse (refToISO t) = some t := by
  cases t with
  | ofNat n => simp [refToISO, refDateParse, decNat_encNat]
  | negSucc n => simp [refToISO, refDateParse, decNat_encNat]

/-- The concrete reference platform model. -/
def refModel : JsModel where
  stringifyPayload := refStringify
  parsePayload := refParse
  b64e := escDot
  b64d := unescDot
  hmac := refHmac
  dateParse := refDateParse
  toISO := refToISO
  parse_stringify := refParse_refStringify
  stringify_ne := by
    intro p
    simp only [refStringify, encField]
    rcases h : escSemi p.action with _ | _ <;> simp
  b64_round := unescDot_escDot
  b64_nodot := not_mem_escDot
  b64e_eq_nil := escDot_eq_nil
  hmac_ne := by intro k m; simp [refHmac]
  dateParse_toISO := refDateParse_refToISO

/-! ### `src/lib/manage-link-alias.ts` — the alias store

The JSON store document is modelled as an association list in key
insertion order (`Object.entries` iterates string keys in insertion
order); `registerManageLinkAlias`'s random `generateAlias()` outputs are
supplied as an explicit candidate stream. -/

/-- `manage-link-alias-store.ts` — `ManageLinkAliasRecord`. -/
structure ManageLinkAliasRecord where
  token : Str
  expiresAt : Str
  createdAt : Int
  deriving DecidableEq, Repr

/-- The persisted alias-store document: alias key ↦ record. -/
abbrev AliasStore := List (Str × ManageLinkAliasRecord)

/-- `records[al]` — association-list lookup. -/
def lookupAlias (al : Str) : AliasStore → Option ManageLinkAliasRecord
  | [] => none
  | entry :: rest => if entry.1 = al then some entry.2 else lookupAlias al rest

/-- `delete records[al]`. -/
def eraseAlias (al : Str) : AliasStore → AliasStore
  | [] => []
  | entry :: rest =>
    if entry.1 = al then eraseAlias al rest else entry :: eraseAlias al rest

/-- `manage-link-alias.ts` — `isExpired`: an unparseable `expiresAt` is
never expired. -/
def isExpired (M : JsModel) (expiresAt : Str) (now : Int) : Bool :=
  match M.dateParse expiresAt with
  | none => false
  | some timestamp => timestamp ≤ now

/-- First loop of `registerManageLinkAlias`: walk the entries in order,
deleting expired ones, and stop (`break`) at the first live record
carrying `token`.  Returns the alias found (if any) and the store after
the deletions made up to that point. -/
def scanForToken (M : JsModel) (now : Int) (token : Str) :
    AliasStore → Option Str × AliasStore
  | [] => (none, [])
  | entry :: rest =>
    if isExpired M entry.2.expiresAt now then scanForToken M now token rest
    else if entry.2.token = token then (some entry.1, entry :: rest)
    else
      let next := scanForToken M now token rest
      (next.1, entry :: next.2)

/-- Second loop of `registerManageLinkAlias`: try the candidate aliases
in order; a colliding live record skips the candidate, a colliding
expired record is deleted (and the candidate still skipped), a free
candidate is registered. -/
def tryGenerate (M : JsModel) (now : Int) (token expiresAt : Str) :
    List Str → AliasStore → Option Str × AliasStore
  | [], store => (none, store)
  | cand :: cands, store =>
    match lookupAlias cand store with
    | some r =>
      if isExpired M r.expiresAt now then
        tryGenerate M now token expiresAt cands (eraseAlias cand store)
      else tryGenerate M now token expiresAt cands store
    | none =>
      (some cand,
       store ++ [(cand, { token := token, expiresAt := expiresAt, createdAt := now })])

/-- `manage-link-alias.ts` — `registerManageLinkAlias`.  `cands` is the
stream of `generateAlias()` outputs; `MAX_GENERATION_ATTEMPTS = 5`
consumes at most five of them.  Returns the alias (or `null`) and the
resulting persisted store. -/
def registerManageLinkAlias (M : JsModel) (cands : List Str) (now : Int)
    (store : AliasStore) (token expiresAt : Str) : Option Str × AliasStore :=
  if token = [] then (none, store)
  else
    match scanForToken M now token store with
    | (some al, store1) => (some al, store1)
    | (none, store1) => tryGenerate M now token expiresAt (cands.take 5) store1

/-- `manage-link-alias.ts` — `resolveManageLinkAlias`: a found-but-expired
record is deleted and `null` returned. -/
def resolveManageLinkAlias (M : JsModel) (now : Int) (store : AliasStore)
    (al : Str) : Option ManageLinkAliasRecord × AliasStore :=
  if al = [] then (none, store)
  else
    match lookupAlias al store with
    | none => (none, store)
    | some r =>
      if isExpired M r.expiresAt now then (none, eraseAlias al store)
      else (some r, store)

/-- `manage-link-alias.ts` — `purgeExpiredManageAliases`: deletes every
expired record and counts the deletions. -/
def purgeExpiredManageAliases (M : JsModel) (now : Int) :
    AliasStore → Nat × AliasStore
  | [] => (0, [])
  | entry :: rest =>
    let next := purgeExpiredManageAliases M now rest
    if isExpired M entry.2.expiresAt now then (next.1 + 1, next.2)
    else (next.1, entry :: next.2)

/-! ### `src/lib/slots.ts` — the slot engine

Timezone arithmetic (`date-fns` / `date-fns-tz` against `HOST_TIMEZONE`)
is external to the repository; it is collected in `TzModel`.  The
configuration JSON files (`app.settings.json`, `availability.rules.json`,
`meeting_types.json`) are not part of the source tree and enter as data
of `SlotsConfig`. -/

/-- External timezone/date primitives used by `slots.ts`. -/
structure TzModel where
  /-- `fromZonedTime("dateLabelTclock:00", HOST_TIMEZONE)` in epoch ms. -/
  fromZonedMs : Str → Str → Int
  /-- `toZonedTime(t, HOST_TIMEZONE).getHours()`. -/
  localHourOf : Int → Int
  /-- `toZonedTime(t, HOST_TIMEZONE).getDay()`. -/
  localDayOf : Int → Nat
  /-- `format(toZonedTime(t, HOST_TIMEZONE), "yyyy-MM-dd")`. -/
  localDateLabel : Int → Str
  /-- `date-fns` `addDays`. -/
  addDays : Int → Nat → Int

/-- `slots.ts` — `MeetingType` (from `meeting_types.json`). -/
structure MeetingType where
  id : Str
  title : Str
  description : Option Str := none
  durationMinutes : Nat
  isActive : Bool
  deriving DecidableEq, Repr

/-- `slots.ts` — `AvailabilityRule` (from `availability.rules.json`);
`stop` models the source's `end` field (a Lean keyword). -/
structure AvailabilityRule where
  weekday : Str
  start : Str
  stop : Str
  deriving DecidableEq, Repr

/-- `slots.ts` — `BusyInterval`; instants in epoch ms, `stop` models the
source's `end`. -/
structure BusyInterval where
  start : Int
  stop : Int
  deriving DecidableEq, Repr

/-- `slots.ts` — `UtcSlot`: ISO-8601 UTC strings (`cursor.toISOString()`),
`stop` models the source's `end`. -/
structure UtcSlot where
  start : Str
  stop : Str
  deriving DecidableEq, Repr

/-- `slots.ts` — `AvailabilityByDate`: date label ↦ slots, in insertion
order. -/
abbrev AvailabilityByDate := List (Str × List UtcSlot)

/-- Configuration and environment entering `slots.ts`. -/
structure SlotsConfig where
  tz : TzModel
  availabilityRules : List AvailabilityRule
  meetingTypes : List MeetingType
  /-- `appSettings.minNoticeMinutes`. -/
  minNoticeMinutes : Nat
  /-- `appSettings.maxDaysOut`. -/
  maxDaysOut : Nat
  /-- the module-level `BLOCKED_MOCK_SLOTS` constant. -/
  blockedMockSlots : List (Str × List Str)

/-- `slots.ts` — `WEEKDAY_INDEX` record. -/
def WEEKDAY_INDEX (w : Str) : Option Nat :=
  if w = "sunday".data then some 0
  else if w = "monday".data then some 1
  else if w = "tuesday".data then some 2
  else if w = "wednesday".data then some 3
  else if w = "thursday".data then some 4
  else if w = "friday".data then some 5
  else if w = "saturday".data then some 6
  else none

/-- `slots.ts` — `getMeetingTypeById`. -/
def getMeetingTypeById (cfg : SlotsConfig) (id : Str) : Option MeetingType :=
  cfg.meetingTypes.find? (fun t => decide (t.id = id))

/-- `slots.ts` — `getRuleForDate`. -/
def getRuleForDate (cfg : SlotsConfig) (dateLabel : Str) : Option AvailabilityRule :=
  let midnightUtc := cfg.tz.fromZonedMs dateLabel "00:00".data
  let weekdayIndex := cfg.tz.localDayOf midnightUtc
  cfg.availabilityRules.find? (fun rule => decide (WEEKDAY_INDEX rule.weekday = some weekdayIndex))

/-- `slots.ts` — `slotOverlapsBusy` (half-open interval overlap). -/
def slotOverlapsBusy (startUtc endUtc : Int) (busy : List BusyInterval) : Bool :=
  busy.any (fun interval => decide (startUtc < interval.stop ∧ endUtc > interval.start))

/-- The `while (cursor < endUtc)` loop of `buildSlotsForDate`, as a
fuel-bounded recursion (the fuel chosen in `buildSlotsForDate` covers
every iteration the source loop performs; the source loop would not
terminate for `durationMinutes = 0`, which the configuration excludes). -/
def slotLoop (M : JsModel) (tz : TzModel) (durationMinutes : Nat)
    (endUtc minStartUtc : Int) (busy : List BusyInterval) :
    Nat → Int → List UtcSlot
  | 0, _ => []
  | fuel + 1, cursor =>
    if cursor < endUtc then
      let slotEnd := cursor + (durationMinutes : Int) * 60000
      if slotEnd > endUtc then []
      else
        let rest := slotLoop M tz durationMinutes endUtc minStartUtc busy fuel slotEnd
        if minStartUtc ≤ cursor then
          if tz.localHourOf cursor = 12 then rest
          else if slotOverlapsBusy cursor slotEnd busy then rest
          else { start := M.toISO cursor, stop := M.toISO slotEnd } :: rest
        else rest
    else []

/-- `slots.ts` — `buildSlotsForDate`. -/
def buildSlotsForDate (M : JsModel) (cfg : SlotsConfig) (mt : MeetingType)
    (dateLabel : Str) (nowUtc : Int) (busy : List BusyInterval) : List UtcSlot :=
  match getRuleForDate cfg dateLabel with
  | none => []
  | some rule =>
    let startUtc := cfg.tz.fromZonedMs dateLabel rule.start
    let endUtc := cfg.tz.fromZonedMs dateLabel rule.stop
    let minStartUtc := nowUtc + (cfg.minNoticeMinutes : Int) * 60000
    slotLoop M cfg.tz mt.durationMinutes endUtc minStartUtc busy
      ((endUtc - startUtc).toNat / (mt.durationMinutes * 60000) + 1) startUtc

/-- Insertion step of the stable sort by `start`
(`sort((a, b) => a.start - b.start)`). -/
def insertByStart (interval : BusyInterval) :
    List BusyInterval → List BusyInterval
  | [] => [interval]
  | j :: rest =>
    if interval.start < j.start then interval :: j :: rest
    else j :: insertByStart interval rest

/-- Stable sort of busy intervals by `start`. -/
def sortByStart : List BusyInterval → List BusyInterval
  | [] => []
  | interval :: rest => insertByStart interval (sortByStart rest)

/-- The coalescing loop of `mergeBusyIntervals`: `previous` is the last
merged interval, extended (`previous.end = current.end`) whenever the
next interval starts at or before its end. -/
def mergeLoop (previous : BusyInterval) :
    List BusyInterval → List BusyInterval
  | [] => [previous]
  | current :: rest =>
    if current.start ≤ previous.stop then
      mergeLoop { start := previous.start, stop := max previous.stop current.stop } rest
    else previous :: mergeLoop current rest

/-- `slots.ts` — `mergeBusyIntervals`. -/
def mergeBusyIntervals (intervals : List BusyInterval) : List BusyInterval :=
  match sortByStart intervals with
  | [] => []
  | first :: rest => mergeLoop first rest

/-- The free-busy response: one list of `{start, end}` string ranges per
calendar (`Object.values` of the `GoogleFreeBusyResult`). -/
abbrev FreeBusy := List (List (Str × Str))

/-- `slots.ts` — `collectBusyIntervals`: parse, drop invalid or empty
ranges, merge. -/
def collectBusyIntervals (M : JsModel) (freeBusy : FreeBusy) : List BusyInterval :=
  let intervals := freeBusy.foldl (fun acc calendarBusy =>
    calendarBusy.foldl (fun acc range =>
      match M.dateParse range.1, M.dateParse range.2 with
      | some s, some e => if e ≤ s then acc else acc ++ [{ start := s, stop := e }]
      | _, _ => acc) acc) []
  mergeBusyIntervals intervals

/-- `availability[dateLabel] = slots` on a JS object: overwrite an
existing key, else append. -/
def upsertDate (label : Str) (slots : List UtcSlot) :
    AvailabilityByDate → AvailabilityByDate
  | [] => [(label, slots)]
  | (k, v) :: rest =>
    if k = label then (k, slots) :: rest
    else (k, v) :: upsertDate label slots rest

/-- `slots.ts` — `buildAvailabilityCalendar`: one entry per day offset in
`0 .. maxDaysOut`. -/
def buildAvailabilityCalendar (M : JsModel) (cfg : SlotsConfig) (mt : MeetingType)
    (startDateUtc nowUtc : Int) (busyIntervals : List BusyInterval) :
    AvailabilityByDate :=
  (List.range (cfg.maxDaysOut + 1)).foldl (fun acc offset =>
    let dayStartUtc := cfg.tz.addDays startDateUtc offset
    let dateLabel := cfg.tz.localDateLabel dayStartUtc
    let nextDayStartUtc := cfg.tz.addDays dayStartUtc 1
    let busyForDay := busyIntervals.filter (fun interval =>
      decide (interval.start < nextDayStartUtc ∧ interval.stop > dayStartUtc))
    upsertDate dateLabel (buildSlotsForDate M cfg mt dateLabel nowUtc busyForDay) acc) []

/-- `slots.ts` — `getAvailabilityWindow`. -/
def getAvailabilityWindow (cfg : SlotsConfig) (nowUtc : Int) : Int × Int :=
  let startLabel := cfg.tz.localDateLabel nowUtc
  let startDateUtc := cfg.tz.fromZonedMs startLabel "00:00".data
  let lastLabel := cfg.tz.localDateLabel (cfg.tz.addDays nowUtc cfg.maxDaysOut)
  let lastDayStartUtc := cfg.tz.fromZonedMs lastLabel "00:00".data
  (startDateUtc, cfg.tz.addDays lastDayStartUtc 1)

/-- `slots.ts` — `createBlockedMockSlots` (evaluated once at module load;
`loadNow` is that load instant). -/
def createBlockedMockSlots (tz : TzModel) (loadNow : Int) : List (Str × List Str) :=
  [(tz.localDateLabel (tz.addDays loadNow 2),
      ["09:00".data, "09:30".data, "10:00".data]),
   (tz.localDateLabel (tz.addDays loadNow 9),
      ["13:00".data, "13:30".data])]

/-- `slots.ts` — `getMockBusyIntervals`. -/
def getMockBusyIntervals (cfg : SlotsConfig) (durationMinutes : Nat) :
    List BusyInterval :=
  cfg.blockedMockSlots.foldl (fun acc entry =>
    entry.2.foldl (fun acc startLabel =>
      let startUtc := cfg.tz.fromZonedMs entry.1 startLabel
      acc ++ [{ start := startUtc, stop := startUtc + (durationMinutes : Int) * 60000 }]) acc) []

/-- `slots.ts` — `getMockSlotsByDate`. -/
def getMockSlotsByDate (M : JsModel) (cfg : SlotsConfig) (nowUtc : Int)
    (meetingTypeId : Str) : AvailabilityByDate :=
  match getMeetingTypeById cfg meetingTypeId with
  | none => []
  | some mt =>
    let window := getAvailabilityWindow cfg nowUtc
    buildAvailabilityCalendar M cfg mt window.1 nowUtc
      (getMockBusyIntervals cfg mt.durationMinutes)

/-- A value thrown by JavaScript code: a `GoogleApiError`, another
`Error` instance, or a non-`Error` value. -/
inductive JsError
  | googleApi (status : Nat) (message : Str)
  | jsError (message : Str)
  | nonError
  deriving DecidableEq, Repr

/-- `slots.ts` — `getAvailabilityByDate`; `freeBusy` is the outcome of
the awaited `getGoogleFreeBusy` call, whose exception propagates. -/
def getAvailabilityByDate (M : JsModel) (cfg : SlotsConfig) (nowUtc : Int)
    (freeBusy : Except JsError FreeBusy) (meetingTypeId : Str) :
    Except JsError AvailabilityByDate :=
  match getMeetingTypeById cfg meetingTypeId with
  | none => .ok []
  | some mt =>
    match freeBusy with
    | .error e => .error e
    | .ok fb =>
      let window := getAvailabilityWindow cfg nowUtc
      .ok (buildAvailabilityCalendar M cfg mt window.1 nowUtc
        (collectBusyIntervals M fb))

/-- `slots.ts` — `AvailabilityResolution.source`. -/
inductive AvailSource
  | google
  | mock
  deriving DecidableEq, Repr

/-- `slots.ts` — `AvailabilityResolution`. -/
structure AvailabilityResolution where
  slotsByDate : AvailabilityByDate
  source : AvailSource
  fallback : Bool
  message : Option Str := none
  deriving DecidableEq, Repr

/-- Message used when a meeting type is not configured. -/
def unknownMeetingTypeMessage (id : Str) : Str :=
  "Meeting type ".data ++ id ++ " is not configured.".data

/-- `error instanceof Error ? error.message : "Unknown error fetching
Google availability"`. -/
def messageOfJsError : JsError → Str
  | .googleApi _ m => m
  | .jsError m => m
  | .nonError => "Unknown error fetching Google availability".data

/-- `slots.ts` — `getAvailabilityWithFallback`: never re-throws; any
failure of the live path falls back to the mock calendar. -/
def getAvailabilityWithFallback (M : JsModel) (cfg : SlotsConfig) (nowUtc : Int)
    (freeBusy : Except JsError FreeBusy) (meetingTypeId : Str) :
    AvailabilityResolution :=
  match getMeetingTypeById cfg meetingTypeId with
  | none =>
    { slotsByDate := [], source := .mock, fallback := true,
      message := some (unknownMeetingTypeMessage meetingTypeId) }
  | some mt =>
    match getAvailabilityByDate M cfg nowUtc freeBusy mt.id with
    | .ok slotsByDate =>
      { slotsByDate := slotsByDate, source := .google, fallback := false }
    | .error e =>
      { slotsByDate := getMockSlotsByDate M cfg nowUtc mt.id, source := .mock,
        fallback := true, message := some (messageOfJsError e) }

/-! ### `sign.ts` — `upsertManageLinkInDescription` and
`describeManagementLinks` -/

/-- `description.replace(/\r\n/g, "\n")`. -/
def normalizeNewlines : Str → Str
  | [] => []
  | '\r' :: '\n' :: rest => '\n' :: normalizeNewlines rest
  | c :: rest => c :: normalizeNewlines rest

/-- JS whitespace for `String.prototype.trim` (ASCII fragment). -/
def isJsSpace (c : Char) : Bool :=
  c = ' ' ∨ c = '\t' ∨ c = '\n' ∨ c = '\r'

/-- `String.prototype.trim`. -/
def trimStr (s : Str) : Str :=
  ((s.dropWhile isJsSpace).reverse.dropWhile isJsSpace).reverse

/-- `String.prototype.toLowerCase` (ASCII fragment). -/
def toLowerStr (s : Str) : Str := s.map Char.toLower

/-- `lines.join("\n")`. -/
def joinNl (lines : List Str) : Str := List.intercalate ['\n'] lines

/-- The `skipNext` filtering loop of `upsertManageLinkInDescription`:
drop every line equal (trimmed, lowercased) to the manage label together
with the line that follows it. -/
def filterManageLines (labelLower : Str) : List Str → List Str
  | [] => []
  | line :: rest =>
    if toLowerStr (trimStr line) = labelLower then
      match rest with
      | [] => []
      | _ :: rest2 => filterManageLines labelLower rest2
    else line :: filterManageLines labelLower rest

/-- The `while (... trim === "") pop()` loop: drop trailing blank lines. -/
def dropTrailingBlank (lines : List Str) : List Str :=
  (lines.reverse.dropWhile (fun l => decide (trimStr l = []))).reverse

/-- `sign.ts` — `upsertManageLinkInDescription`. -/
def upsertManageLinkInDescription (description : Option Str) (manageUrl : Str) : Str :=
  let normalizedDescription :=
    match description with
    | some s => normalizeNewlines s
    | none => []
  let manageLabel := "Manage this meeting:".data
  let manageLabelLower := toLowerStr manageLabel
  let lines := if normalizedDescription ≠ [] then splitOnChar '\n' normalizedDescription else []
  let filteredLines := filterManageLines manageLabelLower lines
  let trimmedUrl := trimStr manageUrl
  if trimmedUrl = [] then joinNl filteredLines
  else
    let filteredLines := dropTrailingBlank filteredLines
    let filteredLines := if filteredLines ≠ [] then filteredLines ++ [[]] else filteredLines
    joinNl (filteredLines ++ [manageLabel, trimmedUrl])

/-- `sign.ts` — `ManagementLinkDescriptor`. -/
structure ManagementLinkDescriptor where
  token : Str
  expiresAt : Str
  path : Str
  url : Str
  deriving DecidableEq, Repr

/-- `sign.ts` — `ManagementLinkCollection`. -/
structure ManagementLinkCollection where
  cancel : ManagementLinkDescriptor
  reschedule : ManagementLinkDescriptor
  manage : ManagementLinkDescriptor
  deriving DecidableEq, Repr

/-- `sign.ts` — `describeManagementLinks`; `absUrl` models
`buildAbsoluteUrl(path, source)`, and the alias registration is threaded
through the alias store. -/
def describeManagementLinks (M : JsModel) (cands : List Str) (now : Int)
    (store : AliasStore) (links : ManagementLinks) (absUrl : Str → Str) :
    ManagementLinkCollection × AliasStore :=
  let cancelPath := "/cancel/".data ++ links.cancel.token
  let reschedulePath := "/reschedule/".data ++ links.reschedule.token
  let (manageAlias, store1) :=
    registerManageLinkAlias M cands now store links.manage.token links.manage.expiresAt
  let managePath :=
    match manageAlias with
    | some al => if al = [] then "/manage/".data ++ links.manage.token else "/m/".data ++ al
    | none => "/manage/".data ++ links.manage.token
  ({ cancel := { token := links.cancel.token, expiresAt := links.cancel.expiresAt,
                 path := cancelPath, url := absUrl cancelPath }
     reschedule := { token := links.reschedule.token, expiresAt := links.reschedule.expiresAt,
                     path := reschedulePath, url := absUrl reschedulePath }
     manage := { token := links.manage.token, expiresAt := links.manage.expiresAt,
                 path := managePath, url := absUrl managePath } }, store1)

/-! ### `src/app/api/reschedule/route.ts` — the PATCH handler -/

/-- `route.ts` — `isLinkExpired`. -/
def isLinkExpired (M : JsModel) (now : Int) (expiresAt : Str) : Bool :=
  match M.dateParse expiresAt with
  | none => false
  | some expiresAtMs => expiresAtMs < now

/-- `route.ts` — `getCalendarIdFromToken`; `calendarIds` is the outcome
of `getGoogleCalendarIds()` (which throws on missing configuration). -/
def getCalendarIdFromToken (calendarIds : Except Str (List Str))
    (tokenCalendarId : Option Str) : Except Str Str :=
  match tokenCalendarId with
  | some cid =>
    if cid = [] then calendarIds.map (fun ids => ids.headD [])
    else .ok cid
  | none => calendarIds.map (fun ids => ids.headD [])

/-- The body statuses of the reschedule route
(`invalid_token`, `expired`, `unknown_meeting_type`, `unavailable`,
`google_error`, `not_found`, `unchanged`, `error`, `rescheduled`). -/
inductive RescheduleStatus
  | invalidToken
  | expired
  | unknownMeetingType
  | unavailable
  | googleError
  | notFound
  | unchanged
  | errorStatus
  | rescheduled
  deriving DecidableEq, Repr

/-- The slice of `GoogleCalendarEvent` the PATCH handler reads; `stop`
models `end` and `rawDescription` the `raw.description` field. -/
structure GoogleCalendarEvent where
  start : Str
  stop : Str
  rawDescription : Option Str := none
  deriving DecidableEq, Repr

/-- One `updateCalendarEvent` call as issued by the PATCH handler. -/
structure UpdateCalendarCall where
  calendarId : Str
  eventId : Str
  start : Str
  stop : Str
  summary : Option Str
  description : Option Str
  sendUpdates : Str
  deriving DecidableEq, Repr

/-- A parsed PATCH body (the `zod` schema was satisfied): `slot.stop`
models `slot.end`. -/
structure RescheduleRequest where
  token : Str
  slotStart : Str
  slotStop : Str
  deriving DecidableEq, Repr

/-- Everything ambient to one PATCH request: the platform model, the
environment, the configuration, the clock, and the outcomes of the
external calendar calls the handler may make. -/
structure PatchCtx where
  M : JsModel
  env : SignEnv
  cfg : SlotsConfig
  now : Int
  /-- outcome of `getGoogleCalendarIds()`. -/
  calendarIds : Except Str (List Str)
  /-- outcome of the free-busy fetch inside `getAvailabilityByDate`. -/
  freeBusy : Except JsError FreeBusy
  aliasStore : AliasStore
  aliasCands : List Str
  /-- `buildAbsoluteUrl(path, request)`. -/
  absUrl : Str → Str
  /-- outcome of the first `updateCalendarEvent` call. -/
  update1 : Except JsError GoogleCalendarEvent
  /-- outcome of the second `updateCalendarEvent` call. -/
  update2 : Except JsError GoogleCalendarEvent

/-- What one PATCH request produced: the response body status, the HTTP
status, the `updateCalendarEvent` calls issued, and the returned event,
if any. -/
structure PatchOutcome where
  status : RescheduleStatus
  httpStatus : Nat
  updateCalls : List UpdateCalendarCall
  event : Option GoogleCalendarEvent := none
  deriving Repr

/-- The summary argument of both update calls:
`` `${title} with ${guestName}` `` when a non-empty guest name is
present. -/
def summaryFor (title : Str) (guestName : Option Str) : Option Str :=
  match guestName with
  | some n => if n = [] then none else some (title ++ " with ".data ++ n)
  | none => none

/-- The tail of the PATCH handler from the first `updateCalendarEvent`
call on (already inside the outer `try`): issue the move, then
best-effort re-embed the manage link; a failure of the second call is
logged only. -/
def patchCommit (ctx : PatchCtx) (calendarId : Str) (eventId : Str)
    (req : RescheduleRequest) (summary : Option Str) (manageUrl : Str) :
    PatchOutcome :=
  let call1 : UpdateCalendarCall :=
    { calendarId := calendarId, eventId := eventId,
      start := req.slotStart, stop := req.slotStop,
      summary := summary, description := none, sendUpdates := "none".data }
  match ctx.update1 with
  | .error e =>
    match e with
    | .googleApi status message =>
      if status = 404 ∨ status = 410 then
        { status := .notFound, httpStatus := 410, updateCalls := [call1] }
      else if status = 409 then
        { status := .unavailable, httpStatus := 409, updateCalls := [call1] }
      else
        { status := .googleError, httpStatus := 502, updateCalls := [call1] }
    | _ => { status := .errorStatus, httpStatus := 500, updateCalls := [call1] }
  | .ok updatedEvent =>
    let descriptionWithManage :=
      upsertManageLinkInDescription updatedEvent.rawDescription manageUrl
    let call2 : UpdateCalendarCall :=
      { calendarId := calendarId, eventId := eventId,
        start := updatedEvent.start, stop := updatedEvent.stop,
        summary := summary, description := some descriptionWithManage,
        sendUpdates := "all".data }
    match ctx.update2 with
    | .error _ =>
      { status := .rescheduled, httpStatus := 200,
        updateCalls := [call1, call2], event := some updatedEvent }
    | .ok finalEvent =>
      { status := .rescheduled, httpStatus := 200,
        updateCalls := [call1, call2], event := some finalEvent }

/-- `route.ts` — the `PATCH` handler.  `body` is the outcome of parsing
the request body against the `zod` schema (`none`: malformed JSON or
schema failure).  `Except.error` models an exception escaping the
handler (only a missing signing secret can cause one). -/
def PATCH (ctx : PatchCtx) (body : Option RescheduleRequest) :
    Except Str PatchOutcome :=
  match body with
  | none =>
    .ok { status := .invalidToken, httpStatus := 400, updateCalls := [] }
  | some req =>
    match decodeSignedLinkPayload ctx.M req.token with
    | none =>
      .ok { status := .invalidToken, httpStatus := 400, updateCalls := [] }
    | some decoded =>
      if decoded.action ≠ "reschedule".data then
        .ok { status := .invalidToken, httpStatus := 400, updateCalls := [] }
      else
        match verifySignedLink ctx.M ctx.env ctx.now req.token with
        | .error e => .error e
        | .ok none =>
          if isLinkExpired ctx.M ctx.now decoded.expiresAt then
            .ok { status := .expired, httpStatus := 410, updateCalls := [] }
          else
            .ok { status := .invalidToken, httpStatus := 400, updateCalls := [] }
        | .ok (some verified) =>
          match getMeetingTypeById ctx.cfg verified.meetingTypeId with
          | none =>
            .ok { status := .unknownMeetingType, httpStatus := 404, updateCalls := [] }
          | some meetingType =>
            if (match decoded.slotStart with
                | some s => decide (s ≠ [] ∧ s = req.slotStart)
                | none => false) then
              .ok { status := .unchanged, httpStatus := 400, updateCalls := [] }
            else
              match getCalendarIdFromToken ctx.calendarIds decoded.calendarId with
              | .error _ =>
                .ok { status := .googleError, httpStatus := 500, updateCalls := [] }
              | .ok calendarId =>
                match getAvailabilityByDate ctx.M ctx.cfg ctx.now ctx.freeBusy
                    meetingType.id with
                | .error e =>
                  match e with
                  | .googleApi status _ =>
                    if status = 404 ∨ status = 410 then
                      .ok { status := .notFound, httpStatus := 410, updateCalls := [] }
                    else if status = 409 then
                      .ok { status := .unavailable, httpStatus := 409, updateCalls := [] }
                    else
                      .ok { status := .googleError, httpStatus := 502, updateCalls := [] }
                  | _ =>
                    .ok { status := .errorStatus, httpStatus := 500, updateCalls := [] }
                | .ok availability =>
                  let dateKey := req.slotStart.take 10
                  let slotsForDate :=
                    ((availability.find? (fun e => decide (e.1 = dateKey))).map Prod.snd).getD []
                  let slotAvailable := slotsForDate.any (fun candidate =>
                    decide (candidate.start = req.slotStart ∧ candidate.stop = req.slotStop))
                  if ¬slotAvailable then
                    .ok { status := .unavailable, httpStatus := 409, updateCalls := [] }
                  else
                    match createManagementLinks ctx.M ctx.env ctx.now
                        { meetingTypeId := meetingType.id, eventId := verified.eventId,
                          guestEmail := decoded.guestEmail, guestName := decoded.guestName,
                          calendarId := some calendarId,
                          slotStart := some req.slotStart, slotEnd := some req.slotStop } with
                    | .error _ =>
                      .ok { status := .errorStatus, httpStatus := 500, updateCalls := [] }
                    | .ok linksRaw =>
                      let (managementLinks, _) := describeManagementLinks ctx.M
                        ctx.aliasCands ctx.now ctx.aliasStore linksRaw ctx.absUrl
                      .ok (patchCommit ctx calendarId verified.eventId req
                        (summaryFor meetingType.title decoded.guestName)
                        managementLinks.manage.url)

/-! ### Sample inputs for concrete evaluation -/

/-- A sample signing secret. -/
def sampleSecret : Str := "k1".data

/-- A sample valid payload; `expiresAt` parses to instant 9. -/
def samplePayload : SignedLinkPayload :=
  { action := "cancel".data, meetingTypeId := "intro-30".data,
    eventId := "evt-123".data, guestEmail := "g@example.com".data,
    expiresAt := refToISO 9 }

/-- The token `signLinkPayload` produces for `samplePayload`. -/
def sampleToken : Str :=
  match signLinkPayload refModel ⟨some sampleSecret⟩ samplePayload with
  | .ok t => t
  | .error _ => []

/-- Sample management-link input fields. -/
def sampleLinkInput : LinkPayloadInput :=
  { meetingTypeId := "intro-30".data, eventId := "evt-123".data,
    guestEmail := "g@example.com".data }

/-- The management links minted for `sampleLinkInput` at instant 0 with
TTL 7. -/
def sampleLinks : ManagementLinks :=
  match createManagementLinks refModel ⟨some sampleSecret⟩ 0 sampleLinkInput 7 with
  | .ok links => links
  | .error _ => { cancel := ⟨[], []⟩, reschedule := ⟨[], []⟩, manage := ⟨[], []⟩ }

/-! ## Support lemmas -/

/-- A one-character split always yields at least one part. -/
theorem splitOnChar_ne_nil (sep : Char) (s : Str) : splitOnChar sep s ≠ [] := by
  induction s with
  | nil => simp [splitOnChar]
  | cons c rest ih =>
    rcases h : splitOnChar sep rest with _ | ⟨t, ts⟩
    · exact absurd h ih
    · rw [splitOnChar, h]
      by_cases hc : c = sep <;> simp [hc]

/-- Splitting a separator-free string yields that one part. -/
theorem splitOnChar_no_sep (sep : Char) (a : Str) (ha : sep ∉ a) :
    splitOnChar sep a = [a] := by
  induction a with
  | nil => rfl
  | cons c rest ih =>
    have hc : c ≠ sep := fun h => ha (by simp [h])
    have hrest : sep ∉ rest := fun h => ha (List.mem_cons_of_mem _ h)
    rw [splitOnChar, ih hrest]
    simp [hc]

/-- Splitting `a ++ sep :: b` with `sep ∉ a` peels off `a`. -/
theorem splitOnChar_append_sep (sep : Char) (a b : Str) (ha : sep ∉ a) :
    splitOnChar sep (a ++ sep :: b) = a :: splitOnChar sep b := by
  induction a with
  | nil =>
    simp only [List.nil_append]
    rcases h : splitOnChar sep b with _ | ⟨t, ts⟩
    · exact absurd h (splitOnChar_ne_nil sep b)
    · rw [splitOnChar, h]
      simp
  | cons c rest ih =>
    have hc : c ≠ sep := fun h => ha (by simp [h])
    have hrest : sep ∉ rest := fun h => ha (List.mem_cons_of_mem _ h)
    rw [List.cons_append, splitOnChar, ih hrest]
    simp [hc]

/-- `signLinkPayload` under a configured secret. -/
theorem signLinkPayload_ok (M : JsModel) (secret : Str) (p : SignedLinkPayload) :
    signLinkPayload M ⟨some secret⟩ p =
      .ok (M.b64e (M.stringifyPayload p) ++
        '.' :: M.b64e (M.hmac secret (M.b64e (M.stringifyPayload p)))) := rfl

/-- The payload segment of a signed token is non-empty. -/
theorem payloadEncoded_ne_nil (M : JsModel) (p : SignedLinkPayload) :
    M.b64e (M.stringifyPayload p) ≠ [] :=
  fun h => M.stringify_ne p (M.b64e_eq_nil _ h)

/-- The signature segment of a signed token is non-empty. -/
theorem signatureEncoded_ne_nil (M : JsModel) (k m : Str) :
    M.b64e (M.hmac k m) ≠ [] :=
  fun h => M.hmac_ne k m (M.b64e_eq_nil _ h)

/-- A signed token is non-empty. -/
theorem signedToken_ne_nil (M : JsModel) (secret : Str) (p : SignedLinkPayload) :
    M.b64e (M.stringifyPayload p) ++
      '.' :: M.b64e (M.hmac secret (M.b64e (M.stringifyPayload p))) ≠ [] := by
  simp

/-- Splitting a signed token on `'.'` recovers its two segments. -/
theorem splitDot_signedToken (M : JsModel) (secret : Str) (p : SignedLinkPayload) :
    splitDot (M.b64e (M.stringifyPayload p) ++
        '.' :: M.b64e (M.hmac secret (M.b64e (M.stringifyPayload p)))) =
      [M.b64e (M.stringifyPayload p),
       M.b64e (M.hmac secret (M.b64e (M.stringifyPayload p)))] := by
  rw [splitDot, splitOnChar_append_sep _ _ _ (M.b64_nodot _),
    splitOnChar_no_sep _ _ (M.b64_nodot _)]

/-- Decoding a signed token recovers the signed payload. -/
theorem decode_signedToken (M : JsModel) (secret : Str) (p : SignedLinkPayload) :
    decodeSignedLinkPayload M (M.b64e (M.stringifyPayload p) ++
      '.' :: M.b64e (M.hmac secret (M.b64e (M.stringifyPayload p)))) = some p := by
  have h1 := signedToken_ne_nil M secret p
  have h2 := payloadEncoded_ne_nil M p
  simp only [decodeSignedLinkPayload, if_neg h1, splitDot_signedToken M secret p,
    List.headD_cons, if_neg h2, M.b64_round, M.parse_stringify]

/-- `verifySignedLink` on a token produced by `signLinkPayload` reduces
to the expiry and required-field checks. -/
theorem verify_signedToken (M : JsModel) (secret : Str) (now : Int)
    (p : SignedLinkPayload) (t : Int) (hdate : M.dateParse p.expiresAt = some t) :
    verifySignedLink M ⟨some secret⟩ now
        (M.b64e (M.stringifyPayload p) ++
          '.' :: M.b64e (M.hmac secret (M.b64e (M.stringifyPayload p)))) =
      .ok (if t < now then none
        else if p.action = [] ∨ p.meetingTypeId = [] ∨ p.eventId = [] ∨
            p.guestEmail = [] then none
        else some p) := by
  have h1 := signedToken_ne_nil M secret p
  have h2 := payloadEncoded_ne_nil M p
  have h3 := signatureEncoded_ne_nil M secret (M.b64e (M.stringifyPayload p))
  simp only [verifySignedLink, if_neg h1, splitDot_signedToken M secret p,
    List.headD_cons, List.drop_succ_cons, List.drop_zero]
  rw [if_neg (by simp [h2, h3])]
  simp only [getSigningSecret, M.b64_round]
  rw [if_neg (by simp)]
  rw [if_neg (by simp)]
  rw [decode_signedToken M secret p]
  simp only [hdate]
  by_cases ht : t < now
  · simp [ht]
  · by_cases hf : p.action = [] ∨ p.meetingTypeId = [] ∨ p.eventId = [] ∨
        p.guestEmail = [] <;> simp [ht, hf]

/-! ## C1 — sign/verify round-trip -/

/-- **C1** For every payload with all required fields non-empty, an
`expiresAt` parsing to an instant strictly in the future, and a
configured signing secret, `verifySignedLink` applied to the token
produced by `signLinkPayload` returns the original payload exactly. -/
theorem sign_verify_roundtrip (M : JsModel) (env : SignEnv) (secret : Str)
    (now t : Int) (p : SignedLinkPayload) (tok : Str)
    (hsec : env.signingSecret = some secret)
    (hsign : signLinkPayload M env p = .ok tok)
    (hdate : M.dateParse p.expiresAt = some t)
    (hfuture : now < t)
    (haction : p.action ≠ []) (hmt : p.meetingTypeId ≠ [])
    (hev : p.eventId ≠ []) (hmail : p.guestEmail ≠ []) :
    verifySignedLink M env now tok = .ok (some p) := by
  cases env with
  | mk s =>
    cases hsec
    rw [signLinkPayload_ok] at hsign
    injection hsign with htok
    subst htok
    rw [verify_signedToken M secret now p t hdate]
    rw [if_neg (by omega)]
    rw [if_neg (by simp [haction, hmt, hev, hmail])]

/-- Witness for C1 at concrete inputs. -/
theorem sign_verify_roundtrip_witness :
    verifySignedLink refModel ⟨some sampleSecret⟩ 3 sampleToken
      = .ok (some samplePayload) :=
  sign_verify_roundtrip refModel ⟨some sampleSecret⟩ sampleSecret 3 9
    samplePayload sampleToken rfl (by rfl) (by rfl) (by norm_num)
    (by decide) (by decide) (by decide) (by decide)

/-! ## C4 — expired tokens verify to null but still decode -/

/-- **C4** For every token produced by `signLinkPayload` whose payload's
`expiresAt` parses to an instant in the past, `verifySignedLink` returns
`null` while `decodeSignedLinkPayload` still returns the payload. -/
theorem verify_expired_decode_ok (M : JsModel) (env : SignEnv) (secret : Str)
    (now t : Int) (p : SignedLinkPayload) (tok : Str)
    (hsec : env.signingSecret = some secret)
    (hsign : signLinkPayload M env p = .ok tok)
    (hdate : M.dateParse p.expiresAt = some t)
    (hpast : t < now) :
    verifySignedLink M env now tok = .ok none ∧
      decodeSignedLinkPayload M tok = some p := by
  cases env with
  | mk s =>
    cases hsec
    rw [signLinkPayload_ok] at hsign
    injection hsign with htok
    subst htok
    refine ⟨?_, decode_signedToken M secret p⟩
    rw [verify_signedToken M secret now p t hdate]
    rw [if_pos hpast]

/-- Witness for C4 at concrete inputs (`expiresAt` instant 9, `now` 20). -/
theorem verify_expired_decode_ok_witness :
    verifySignedLink refModel ⟨some sampleSecret⟩ 20 sampleToken = .ok none ∧
      decodeSignedLinkPayload refModel sampleToken = some samplePayload :=
  verify_expired_decode_ok refModel ⟨some sampleSecret⟩ sampleSecret 20 9
    samplePayload sampleToken rfl (by rfl) (by rfl) (by norm_num)

/-! ## C7 — the three management links share one expiry -/

/-- **C7** For every payload-field input and TTL, the three tokens
`createManagementLinks` returns carry one and the same `expiresAt`. -/
theorem managementLinks_share_expiry (M : JsModel) (env : SignEnv) (now : Int)
    (payload : LinkPayloadInput) (ttlMs : Int) (links : ManagementLinks)
    (h : createManagementLinks M env now payload ttlMs = .ok links) :
    links.cancel.expiresAt = links.reschedule.expiresAt ∧
      links.reschedule.expiresAt = links.manage.expiresAt := by
  cases env with
  | mk s =>
    cases s with
    | none =>
      simp [createManagementLinks, generateSignedLink, signLinkPayload,
        getSigningSecret] at h
    | some secret =>
      simp only [createManagementLinks, generateSignedLink,
        signLinkPayload_ok] at h
      injection h with hlinks
      subst hlinks
      exact ⟨rfl, rfl⟩

/-- Witness for C7 at concrete inputs. -/
theorem managementLinks_share_expiry_witness :
    sampleLinks.cancel.expiresAt = sampleLinks.reschedule.expiresAt ∧
      sampleLinks.reschedule.expiresAt = sampleLinks.manage.expiresAt :=
  managementLinks_share_expiry refModel ⟨some sampleSecret⟩ 0 sampleLinkInput 7
    sampleLinks (by rfl)

/-! ## Alias-store lemmas -/

/-- A future-parsing `expiresAt` is not expired. -/
theorem isExpired_false_of_future (M : JsModel) (expiresAt : Str) (now t : Int)
    (hdate : M.dateParse expiresAt = some t) (hfuture : now < t) :
    isExpired M expiresAt now = false := by
  simp [isExpired, hdate]
  omega

/-- A past-parsing `expiresAt` is expired. -/
theorem isExpired_true_of_past (M : JsModel) (expiresAt : Str) (now t : Int)
    (hdate : M.dateParse expiresAt = some t) (hpast : t ≤ now) :
    isExpired M expiresAt now = true := by
  simp [isExpired, hdate]
  omega

/-- A successful lookup is a membership. -/
theorem lookupAlias_mem (al : Str) (r : ManageLinkAliasRecord) :
    ∀ store : AliasStore, lookupAlias al store = some r → (al, r) ∈ store := by
  intro store
  induction store with
  | nil => intro h; simp [lookupAlias] at h
  | cons e rest ih =>
    intro h
    rw [lookupAlias] at h
    by_cases hk : e.1 = al
    · rw [if_pos hk] at h
      injection h with h
      simp [List.mem_cons, ← hk, ← h]
    · rw [if_neg hk] at h
      exact List.mem_cons_of_mem _ (ih h)

/-- Erasing a key that is absent changes nothing. -/
theorem eraseAlias_of_not_mem (al : Str) :
    ∀ store : AliasStore, al ∉ store.map Prod.fst → eraseAlias al store = store := by
  intro store
  induction store with
  | nil => intro _; rfl
  | cons e rest ih =>
    intro h
    have hk : e.1 ≠ al := by
      intro hk
      exact h (by rw [List.map_cons, ← hk]; exact List.mem_cons_self _ _)
    rw [eraseAlias, if_neg hk,
      ih (fun hm => h (by rw [List.map_cons]; exact List.mem_cons_of_mem _ hm))]

/-- After erasing a key, looking it up fails. -/
theorem lookupAlias_eraseAlias_self (al : Str) :
    ∀ store : AliasStore, lookupAlias al (eraseAlias al store) = none := by
  intro store
  induction store with
  | nil => rfl
  | cons e rest ih =>
    rw [eraseAlias]
    by_cases hk : e.1 = al
    · rw [if_pos hk]
      exact ih
    · rw [if_neg hk, lookupAlias, if_neg hk]
      exact ih

/-- A live record found by `lookupAlias` survives a purge. -/
theorem lookupAlias_purge (M : JsModel) (now : Int) (al : Str)
    (r : ManageLinkAliasRecord) :
    ∀ store : AliasStore, lookupAlias al store = some r →
      isExpired M r.expiresAt now = false →
      lookupAlias al (purgeExpiredManageAliases M now store).2 = some r := by
  intro store
  induction store with
  | nil => intro h; simp [lookupAlias] at h
  | cons e rest ih =>
    intro hlook hr
    rw [lookupAlias] at hlook
    by_cases hk : e.1 = al
    · rw [if_pos hk] at hlook
      injection hlook with hlook
      subst hlook
      rw [purgeExpiredManageAliases]
      simp only [hr, Bool.false_eq_true, if_false]
      rw [lookupAlias, if_pos hk]
    · rw [if_neg hk] at hlook
      have hrec := ih hlook hr
      rw [purgeExpiredManageAliases]
      by_cases he : isExpired M e.2.expiresAt now
      · simpa [he] using hrec
      · simp only [he, Bool.false_eq_true, if_false]
        rw [lookupAlias, if_neg hk]
        exact hrec

/-- The purge count splits off the contribution of one looked-up key
(store keys assumed unique, as for a JS object). -/
theorem purge_count_eraseAlias (M : JsModel) (now : Int) (al : Str)
    (r : ManageLinkAliasRecord) :
    ∀ store : AliasStore, (store.map Prod.fst).Nodup →
      lookupAlias al store = some r →
      (purgeExpiredManageAliases M now store).1 =
        (purgeExpiredManageAliases M now (eraseAlias al store)).1 +
          (if isExpired M r.expiresAt now then 1 else 0) := by
  intro store
  induction store with
  | nil => intro _ h; simp [lookupAlias] at h
  | cons e rest ih =>
    intro hnodup hlook
    rw [lookupAlias] at hlook
    rw [List.map_cons, List.nodup_cons] at hnodup
    by_cases hk : e.1 = al
    · rw [if_pos hk] at hlook
      injection hlook with hlook
      rw [eraseAlias, if_pos hk]
      rw [eraseAlias_of_not_mem al rest (by rw [← hk]; exact hnodup.1)]
      rw [purgeExpiredManageAliases]
      subst hlook
      by_cases he : isExpired M e.2.expiresAt now <;> simp [he]
    · rw [if_neg hk] at hlook
      have hrec := ih hnodup.2 hlook
      rw [eraseAlias, if_neg hk]
      rw [purgeExpiredManageAliases, purgeExpiredManageAliases]
      by_cases he : isExpired M e.2.expiresAt now <;>
        by_cases hre : isExpired M r.expiresAt now <;>
          simp [he, hre] at hrec ⊢ <;> omega

/-! ## C10 — unparseable expiry means the record never expires -/

/-- **C10** A store record whose `expiresAt` does not parse is never
considered expired: `resolveManageLinkAlias` returns it unchanged at any
instant, and `purgeExpiredManageAliases` at any instant neither deletes
nor counts it, so the record persists indefinitely. -/
theorem unparseable_expiry_never_expires (M : JsModel) (now now2 : Int)
    (store : AliasStore) (al : Str) (r : ManageLinkAliasRecord)
    (hnodup : (store.map Prod.fst).Nodup)
    (hal : al ≠ [])
    (hlook : lookupAlias al store = some r)
    (hdate : M.dateParse r.expiresAt = none) :
    resolveManageLinkAlias M now store al = (some r, store) ∧
      lookupAlias al (purgeExpiredManageAliases M now2 store).2 = some r ∧
      (purgeExpiredManageAliases M now2 store).1 =
        (purgeExpiredManageAliases M now2 (eraseAlias al store)).1 := by
  have hexp : ∀ n : Int, isExpired M r.expiresAt n = false := fun n => by
    simp [isExpired, hdate]
  refine ⟨?_, ?_, ?_⟩
  · rw [resolveManageLinkAlias, if_neg hal, hlook]
    simp [hexp now]
  · exact lookupAlias_purge M now2 al r store hlook (hexp now2)
  · rw [purge_count_eraseAlias M now2 al r store hnodup hlook]
    simp [hexp now2]

/-- Witness store for C10: one record with unparseable `expiresAt`. -/
def c10Store : AliasStore :=
  [("a1b2".data, { token := "tok-1".data, expiresAt := "never".data, createdAt := 0 })]

/-- Witness for C10 at concrete inputs. -/
theorem unparseable_expiry_never_expires_witness :
    resolveManageLinkAlias refModel 1000 c10Store "a1b2".data =
        (some { token := "tok-1".data, expiresAt := "never".data, createdAt := 0 },
          c10Store) ∧
      lookupAlias "a1b2".data (purgeExpiredManageAliases refModel 5000 c10Store).2 =
        some { token := "tok-1".data, expiresAt := "never".data, createdAt := 0 } ∧
      (purgeExpiredManageAliases refModel 5000 c10Store).1 =
        (purgeExpiredManageAliases refModel 5000 (eraseAlias "a1b2".data c10Store)).1 :=
  unparseable_expiry_never_expires refModel 1000 5000 c10Store "a1b2".data
    { token := "tok-1".data, expiresAt := "never".data, createdAt := 0 }
    (by decide) (by decide) (by decide) (by decide)

/-! ## C3 — expired alias: resolve nulls and deletes; the purge count -/

/-- Witness store for C3: one record expiring at instant 5. -/
def c3Store : AliasStore :=
  [("a1b2".data, { token := "tok-1".data, expiresAt := refToISO 5, createdAt := 0 })]

/-- **C3 counterexample** With the clock strictly past the record's
`expiresAt`, `resolveManageLinkAlias` returns `null` — but the
`purgeExpiredManageAliases` call made after it returns 0, not a count
including the alias once: the resolve already deleted the record. -/
theorem resolve_then_purge_count_counterexample :
    (resolveManageLinkAlias refModel 10 c3Store "a1b2".data).1 = none ∧
      (purgeExpiredManageAliases refModel 10
        (resolveManageLinkAlias refModel 10 c3Store "a1b2".data).2).1 = 0 := by
  decide

/-- **C3 (amended)** Once the clock is strictly past a registered
alias's `expiresAt`, `resolveManageLinkAlias` returns `null` and deletes
the record; a `purgeExpiredManageAliases` call made after that resolve
therefore does not count this alias — its count is exactly one less
than a purge of the pre-resolve store, which would have counted the
alias exactly once. -/
theorem resolve_expired_then_purge (M : JsModel) (now : Int)
    (store : AliasStore) (al : Str) (r : ManageLinkAliasRecord) (t : Int)
    (hnodup : (store.map Prod.fst).Nodup)
    (hal : al ≠ [])
    (hlook : lookupAlias al store = some r)
    (hdate : M.dateParse r.expiresAt = some t)
    (hpast : t < now) :
    resolveManageLinkAlias M now store al = (none, eraseAlias al store) ∧
      lookupAlias al (eraseAlias al store) = none ∧
      (purgeExpiredManageAliases M now (eraseAlias al store)).1 + 1 =
        (purgeExpiredManageAliases M now store).1 := by
  have hexp : isExpired M r.expiresAt now = true :=
    isExpired_true_of_past M r.expiresAt now t hdate (le_of_lt hpast)
  refine ⟨?_, lookupAlias_eraseAlias_self al store, ?_⟩
  · rw [resolveManageLinkAlias, if_neg hal, hlook]
    simp [hexp]
  · rw [purge_count_eraseAlias M now al r store hnodup hlook]
    simp [hexp]

/-- Witness for the amended C3 at concrete inputs. -/
theorem resolve_expired_then_purge_witness :
    resolveManageLinkAlias refModel 10 c3Store "a1b2".data =
        (none, eraseAlias "a1b2".data c3Store) ∧
      lookupAlias "a1b2".data (eraseAlias "a1b2".data c3Store) = none ∧
      (purgeExpiredManageAliases refModel 10 (eraseAlias "a1b2".data c3Store)).1 + 1 =
        (purgeExpiredManageAliases refModel 10 c3Store).1 :=
  resolve_expired_then_purge refModel 10 c3Store "a1b2".data
    { token := "tok-1".data, expiresAt := refToISO 5, createdAt := 0 } 5
    (by decide) (by decide) (by decide) (by decide) (by norm_num)

/-! ## C5 — idempotent re-registration -/

/-- Shape of a successful token scan: the resulting store is the scanned
prefix (now free of expired records and of `token`) followed by the
found live record and the untouched tail. -/
theorem scanForToken_found (M : JsModel) (now : Int) (token : Str) :
    ∀ (store : AliasStore) (al : Str) (st : AliasStore),
      scanForToken M now token store = (some al, st) →
      ∃ pre r post, st = pre ++ (al, r) :: post ∧
        (∀ e ∈ pre, isExpired M e.2.expiresAt now = false ∧ e.2.token ≠ token) ∧
        r.token = token ∧ isExpired M r.expiresAt now = false := by
  intro store
  induction store with
  | nil => intro al st h; simp [scanForToken] at h
  | cons e rest ih =>
    intro al st h
    rw [scanForToken] at h
    by_cases he : isExpired M e.2.expiresAt now
    · rw [if_pos he] at h
      exact ih al st h
    · rw [if_neg he] at h
      by_cases htok : e.2.token = token
      · rw [if_pos htok] at h
        injection h with h1 h2
        injection h1 with h1
        exact ⟨[], e.2, rest, by rw [← h2, ← h1]; rfl, by simp, htok, by simpa using he⟩
      · rw [if_neg htok] at h
        rcases hs : scanForToken M now token rest with ⟨f, st'⟩
        rw [hs] at h
        injection h with h1 h2
        subst h1
        rcases ih al st' hs with ⟨pre, r, post, hshape, hpre, hr, hrexp⟩
        refine ⟨e :: pre, r, post, ?_, ?_, hr, hrexp⟩
        · rw [← h2, hshape]; rfl
        · intro x hx
          rcases List.mem_cons.mp hx with hx | hx
          · subst hx
            exact ⟨by simpa using he, htok⟩
          · exact hpre x hx

/-- Shape of a failed token scan: the resulting store is free of expired
records and of `token`. -/
theorem scanForToken_none (M : JsModel) (now : Int) (token : Str) :
    ∀ (store : AliasStore) (st : AliasStore),
      scanForToken M now token store = (none, st) →
      ∀ e ∈ st, isExpired M e.2.expiresAt now = false ∧ e.2.token ≠ token := by
  intro store
  induction store with
  | nil =>
    intro st h
    rw [scanForToken] at h
    injection h with _ h2
    subst h2
    intro e he
    simp at he
  | cons e rest ih =>
    intro st h
    rw [scanForToken] at h
    by_cases he : isExpired M e.2.expiresAt now
    · rw [if_pos he] at h
      exact ih st h
    · rw [if_neg he] at h
      by_cases htok : e.2.token = token
      · rw [if_pos htok] at h
        injection h with h1 _
        simp at h1
      · rw [if_neg htok] at h
        rcases hs : scanForToken M now token rest with ⟨f, st'⟩
        rw [hs] at h
        injection h with h1 h2
        subst h1 h2
        intro x hx
        rcases List.mem_cons.mp hx with hx | hx
        · subst hx
          exact ⟨by simpa using he, htok⟩
        · exact ih st' hs x hx

/-- Scanning a store of the found shape finds the record and changes
nothing. -/
theorem scanForToken_clean_found (M : JsModel) (now : Int) (token : Str)
    (al : Str) (r : ManageLinkAliasRecord) (post : AliasStore) :
    ∀ pre : AliasStore,
      (∀ e ∈ pre, isExpired M e.2.expiresAt now = false ∧ e.2.token ≠ token) →
      r.token = token → isExpired M r.expiresAt now = false →
      scanForToken M now token (pre ++ (al, r) :: post) =
        (some al, pre ++ (al, r) :: post) := by
  intro pre
  induction pre with
  | nil =>
    intro _ hr hrexp
    rw [List.nil_append, scanForToken, if_neg (by simp [hrexp]), if_pos hr]
  | cons e rest ih =>
    intro hpre hr hrexp
    have he := hpre e (List.mem_cons_self e rest)
    rw [List.cons_append, scanForToken, if_neg (by simp [he.1]), if_neg he.2,
      ih (fun x hx => hpre x (List.mem_cons_of_mem e hx)) hr hrexp]

/-- On a store free of expired records and of `token`, the generation
loop either gives up leaving the store unchanged or appends one fresh
record at the end. -/
theorem tryGenerate_clean (M : JsModel) (now : Int) (token expiresAt : Str) :
    ∀ (cands : List Str) (store : AliasStore) (res : Option Str × AliasStore),
      (∀ e ∈ store, isExpired M e.2.expiresAt now = false ∧ e.2.token ≠ token) →
      tryGenerate M now token expiresAt cands store = res →
      (res.1 = none ∧ res.2 = store) ∨
        (∃ c, res.1 = some c ∧
          res.2 = store ++ [(c, { token := token, expiresAt := expiresAt, createdAt := now })]) := by
  intro cands
  induction cands with
  | nil =>
    intro store res _ h
    rw [tryGenerate] at h
    left
    rw [← h]
    exact ⟨rfl, rfl⟩
  | cons c cs ih =>
    intro store res hclean h
    rw [tryGenerate] at h
    rcases hl : lookupAlias c store with _ | r
    · rw [hl] at h
      right
      exact ⟨c, by rw [← h], by rw [← h]⟩
    · rw [hl] at h
      have hmem := lookupAlias_mem c r store hl
      have hr := (hclean (c, r) hmem).1
      simp only [hr, Bool.false_eq_true, if_false] at h
      exact ih store res hclean h

/-- **C5** Registering the same unexpired token twice returns the same
alias both times: a token maps to at most one live alias. -/
theorem register_idempotent (M : JsModel) (cands cands2 : List Str) (now t : Int)
    (store store1 : AliasStore) (token expiresAt : Str) (al : Str)
    (htok : token ≠ [])
    (hdate : M.dateParse expiresAt = some t)
    (hfuture : now < t)
    (hfirst : registerManageLinkAlias M cands now store token expiresAt =
      (some al, store1)) :
    registerManageLinkAlias M cands2 now store1 token expiresAt =
      (some al, store1) := by
  rw [registerManageLinkAlias, if_neg htok] at hfirst
  rcases hscan : scanForToken M now token store with ⟨f, st⟩
  rw [hscan] at hfirst
  cases f with
  | some a =>
    have h12 : ((some a : Option Str), st) = (some al, store1) := hfirst
    injection h12 with h1 h2
    injection h1 with h1
    subst h1
    subst h2
    rcases scanForToken_found M now token store a st hscan with
      ⟨pre, r, post, hshape, hpre, hr, hrexp⟩
    rw [registerManageLinkAlias, if_neg htok, hshape,
      scanForToken_clean_found M now token a r post pre hpre hr hrexp]
  | none =>
    have hfirst2 : tryGenerate M now token expiresAt (cands.take 5) st =
        (some al, store1) := hfirst
    have hclean := scanForToken_none M now token store st hscan
    rcases tryGenerate_clean M now token expiresAt (cands.take 5) st
        (some al, store1) hclean hfirst2 with ⟨h1, _⟩ | ⟨c, hc, hshape⟩
    · exact absurd h1 (by simp)
    · have hc2 : (some al : Option Str) = some c := hc
      injection hc2 with hc2
      subst hc2
      have hshape2 : store1 = st ++
          [(al, { token := token, expiresAt := expiresAt, createdAt := now })] := hshape
      rw [registerManageLinkAlias, if_neg htok, hshape2,
        scanForToken_clean_found M now token al
          { token := token, expiresAt := expiresAt, createdAt := now } [] st hclean rfl
          (isExpired_false_of_future M expiresAt now t hdate hfuture)]

/-- Witness first-call store for C5. -/
def c5Store1 : AliasStore :=
  (registerManageLinkAlias refModel ["a7Bc".data] 0 [] "tok-1".data (refToISO 99)).2

/-- Witness for C5 at concrete inputs. -/
theorem register_idempotent_witness :
    registerManageLinkAlias refModel [] 0 c5Store1 "tok-1".data (refToISO 99) =
      (some "a7Bc".data, c5Store1) :=
  register_idempotent refModel ["a7Bc".data] [] 0 99 [] c5Store1 "tok-1".data
    (refToISO 99) "a7Bc".data (by decide) (by rfl) (by norm_num) (by decide)

/-! ## C2 — slot engine respects the lunch break and the lead time -/

/-- Every slot the loop emits is the rendering of a cursor instant that
passed the lead-time and lunch-hour guards. -/
theorem slotLoop_sound (M : JsModel) (tz : TzModel) (dur : Nat)
    (endUtc minStartUtc : Int) (busy : List BusyInterval) :
    ∀ (fuel : Nat) (cursor : Int) (s : UtcSlot),
      s ∈ slotLoop M tz dur endUtc minStartUtc busy fuel cursor →
      ∃ t : Int, s.start = M.toISO t ∧ tz.localHourOf t ≠ 12 ∧ minStartUtc ≤ t := by
  intro fuel
  induction fuel with
  | zero => intro cursor s h; simp [slotLoop] at h
  | succ fuel ih =>
    intro cursor s h
    simp only [slotLoop] at h
    by_cases h1 : cursor < endUtc
    · rw [if_pos h1] at h
      by_cases h2 : cursor + (dur : Int) * 60000 > endUtc
      · rw [if_pos h2] at h
        simp at h
      · rw [if_neg h2] at h
        by_cases h3 : minStartUtc ≤ cursor
        · rw [if_pos h3] at h
          by_cases h4 : tz.localHourOf cursor = 12
          · rw [if_pos h4] at h
            exact ih _ s h
          · rw [if_neg h4] at h
            by_cases h5 : slotOverlapsBusy cursor (cursor + (dur : Int) * 60000) busy = true
            · rw [if_pos h5] at h
              exact ih _ s h
            · rw [if_neg h5] at h
              rcases List.mem_cons.mp h with h | h
              · subst h
                exact ⟨cursor, rfl, h4, h3⟩
              · exact ih _ s h
        · rw [if_neg h3] at h
          exact ih _ s h
    · rw [if_neg h1] at h
      simp at h

/-- **C2** `buildSlotsForDate` never emits a slot whose start instant has
host-local hour 12, and never emits a slot starting before
`now + minNoticeMinutes`. -/
theorem slots_respect_lunch_and_notice (M : JsModel) (cfg : SlotsConfig)
    (mt : MeetingType) (dateLabel : Str) (nowUtc : Int) (busy : List BusyInterval)
    (s : UtcSlot) (hs : s ∈ buildSlotsForDate M cfg mt dateLabel nowUtc busy) :
    ∃ t : Int, M.dateParse s.start = some t ∧ cfg.tz.localHourOf t ≠ 12 ∧
      nowUtc + (cfg.minNoticeMinutes : Int) * 60000 ≤ t := by
  rw [buildSlotsForDate] at hs
  rcases hrule : getRuleForDate cfg dateLabel with _ | rule
  · rw [hrule] at hs
    simp at hs
  · rw [hrule] at hs
    rcases slotLoop_sound M cfg.tz mt.durationMinutes _ _ busy _ _ s hs with
      ⟨t, hstart, hhour, hmin⟩
    exact ⟨t, by rw [hstart, M.dateParse_toISO], hhour, hmin⟩

/-- Sample timezone model: a fixed-offset zone where the witness date's
rule window is `[0, 3600000)` and every instant has host-local hour 9. -/
def sampleTz : TzModel :=
  { fromZonedMs := fun _ clock => if clock = "10:00".data then 3600000 else 0
    localHourOf := fun _ => 9
    localDayOf := fun _ => 3
    localDateLabel := fun _ => "2026-01-07".data
    addDays := fun t n => t + 86400000 * n }

/-- Sample availability rule: Wednesday 09:00–10:00. -/
def sampleRules : List AvailabilityRule :=
  [{ weekday := "wednesday".data, start := "09:00".data, stop := "10:00".data }]

/-- Sample meeting type (30 minutes). -/
def sampleMeetingType : MeetingType :=
  { id := "intro-30".data, title := "Intro call".data, durationMinutes := 30,
    isActive := true }

/-- Sample slot-engine configuration. -/
def sampleCfg : SlotsConfig :=
  { tz := sampleTz, availabilityRules := sampleRules,
    meetingTypes := [sampleMeetingType], minNoticeMinutes := 0, maxDaysOut := 2,
    blockedMockSlots := [] }

/-- Witness for C2 at concrete inputs (the 09:00 slot of the sample
configuration). -/
theorem slots_respect_lunch_and_notice_witness :
    ∃ t : Int,
      refModel.dateParse (UtcSlot.start { start := refToISO 0, stop := refToISO 1800000 }) =
          some t ∧
        sampleCfg.tz.localHourOf t ≠ 12 ∧
        0 + (sampleCfg.minNoticeMinutes : Int) * 60000 ≤ t :=
  slots_respect_lunch_and_notice refModel sampleCfg sampleMeetingType
    "2026-01-07".data 0 [] { start := refToISO 0, stop := refToISO 1800000 }
    (by decide)

/-! ## C6 — busy-interval merging -/

/-- The instants a busy interval occupies (half-open, matching the
overlap test `slotStart < busyEnd && slotEnd > busyStart`). -/
def covers (i : BusyInterval) (x : Int) : Prop := i.start ≤ x ∧ x < i.stop

/-- The union of the instants a list of busy intervals occupies. -/
def coveredBy (l : List BusyInterval) (x : Int) : Prop := ∃ i ∈ l, covers i x

/-- Coverage only depends on the members. -/
theorem coveredBy_perm {l l' : List BusyInterval} (h : l.Perm l') (x : Int) :
    coveredBy l x ↔ coveredBy l' x := by
  unfold coveredBy
  constructor
  · rintro ⟨i, hi, hc⟩
    exact ⟨i, h.mem_iff.mp hi, hc⟩
  · rintro ⟨i, hi, hc⟩
    exact ⟨i, h.mem_iff.mpr hi, hc⟩

/-- `insertByStart` is a permutation of consing. -/
theorem insertByStart_perm (i : BusyInterval) :
    ∀ l : List BusyInterval, (insertByStart i l).Perm (i :: l) := by
  intro l
  induction l with
  | nil => exact List.Perm.refl _
  | cons j rest ih =>
    rw [insertByStart]
    by_cases h : i.start < j.start
    · rw [if_pos h]
    · rw [if_neg h]
      exact (ih.cons j).trans (List.Perm.swap i j rest)

/-- `sortByStart` permutes its input. -/
theorem sortByStart_perm : ∀ l : List BusyInterval, (sortByStart l).Perm l := by
  intro l
  induction l with
  | nil => exact List.Perm.refl _
  | cons i rest ih =>
    rw [sortByStart]
    exact (insertByStart_perm i (sortByStart rest)).trans (ih.cons i)

/-- `insertByStart` preserves sortedness by `start`. -/
theorem insertByStart_sorted (i : BusyInterval) :
    ∀ l : List BusyInterval,
      List.Pairwise (fun a b => a.start ≤ b.start) l →
      List.Pairwise (fun a b => a.start ≤ b.start) (insertByStart i l) := by
  intro l
  induction l with
  | nil => intro _; simp [insertByStart]
  | cons j rest ih =>
    intro hsorted
    rw [List.pairwise_cons] at hsorted
    rw [insertByStart]
    by_cases h : i.start < j.start
    · rw [if_pos h]
      refine List.Pairwise.cons ?_ (List.Pairwise.cons hsorted.1 hsorted.2)
      intro x hx
      rcases List.mem_cons.mp hx with hx | hx
      · subst hx; exact le_of_lt h
      · exact le_trans (le_of_lt h) (hsorted.1 x hx)
    · rw [if_neg h]
      refine List.Pairwise.cons ?_ (ih hsorted.2)
      intro x hx
      rcases List.mem_cons.mp ((insertByStart_perm i rest).mem_iff.mp hx) with rfl | hx
      · exact le_of_not_lt h
      · exact hsorted.1 x hx

/-- `sortByStart` sorts by `start`. -/
theorem sortByStart_sorted :
    ∀ l : List BusyInterval,
      List.Pairwise (fun a b => a.start ≤ b.start) (sortByStart l) := by
  intro l
  induction l with
  | nil => simp [sortByStart]
  | cons i rest ih =>
    rw [sortByStart]
    exact insertByStart_sorted i (sortByStart rest) ih

/-- Full specification of the coalescing loop on a sorted input segment:
positive intervals out, strict gaps between consecutive intervals, a
lower bound on every emitted start, and preservation of coverage. -/
theorem mergeLoop_spec :
    ∀ (rest : List BusyInterval) (prev : BusyInterval),
      prev.start < prev.stop →
      (∀ i ∈ rest, i.start < i.stop) →
      (∀ i ∈ rest, prev.start ≤ i.start) →
      List.Pairwise (fun a b => a.start ≤ b.start) rest →
      (∀ i ∈ mergeLoop prev rest, i.start < i.stop) ∧
        List.Pairwise (fun a b => a.stop < b.start) (mergeLoop prev rest) ∧
        (∀ i ∈ mergeLoop prev rest, prev.start ≤ i.start) ∧
        (∀ x : Int, (covers prev x ∨ coveredBy rest x) ↔
          coveredBy (mergeLoop prev rest) x) := by
  intro rest
  induction rest with
  | nil =>
    intro prev hprev _ _ _
    refine ⟨?_, ?_, ?_, ?_⟩
    · intro i hi
      rw [mergeLoop] at hi
      rcases List.mem_singleton.mp hi with rfl
      exact hprev
    · rw [mergeLoop]
      simp
    · intro i hi
      rw [mergeLoop] at hi
      rcases List.mem_singleton.mp hi with rfl
      exact le_refl _
    · intro x
      rw [mergeLoop]
      simp [coveredBy]
  | cons cur rest ih =>
    intro prev hprev hpos hstart hsorted
    rw [List.pairwise_cons] at hsorted
    have hcur : cur.start < cur.stop := hpos cur (List.mem_cons_self cur rest)
    have hpc : prev.start ≤ cur.start := hstart cur (List.mem_cons_self cur rest)
    rw [mergeLoop]
    by_cases hm : cur.start ≤ prev.stop
    · rw [if_pos hm]
      have hrec := ih { start := prev.start, stop := max prev.stop cur.stop }
        (lt_of_lt_of_le hprev (le_max_left _ _))
        (fun i hi => hpos i (List.mem_cons_of_mem cur hi))
        (fun i hi => hstart i (List.mem_cons_of_mem cur hi))
        hsorted.2
      refine ⟨hrec.1, hrec.2.1, hrec.2.2.1, ?_⟩
      intro x
      rw [← hrec.2.2.2 x]
      constructor
      · rintro (h | ⟨i, hi, hc⟩)
        · exact Or.inl ⟨h.1, lt_of_lt_of_le h.2 (le_max_left _ _)⟩
        · rcases List.mem_cons.mp hi with rfl | hi
          · exact Or.inl ⟨le_trans hpc hc.1, lt_of_lt_of_le hc.2 (le_max_right _ _)⟩
          · exact Or.inr ⟨i, hi, hc⟩
      · rintro (h | ⟨i, hi, hc⟩)
        · by_cases hx : x < prev.stop
          · exact Or.inl ⟨h.1, hx⟩
          · refine Or.inr ⟨cur, List.mem_cons_self cur rest, ?_, ?_⟩
            · have h1 : prev.start ≤ x := h.1
              omega
            · rcases lt_max_iff.mp h.2 with h2 | h2
              · omega
              · exact h2
        · exact Or.inr ⟨i, List.mem_cons_of_mem cur hi, hc⟩
    · rw [if_neg hm]
      have hrec := ih cur hcur
        (fun i hi => hpos i (List.mem_cons_of_mem cur hi))
        (fun i hi => hsorted.1 i hi)
        hsorted.2
      refine ⟨?_, ?_, ?_, ?_⟩
      · intro i hi
        rcases List.mem_cons.mp hi with rfl | hi
        · exact hprev
        · exact hrec.1 i hi
      · refine List.Pairwise.cons ?_ hrec.2.1
        intro i hi
        exact lt_of_lt_of_le (by omega) (hrec.2.2.1 i hi)
      · intro i hi
        rcases List.mem_cons.mp hi with rfl | hi
        · exact le_refl _
        · exact le_trans hpc (hrec.2.2.1 i hi)
      · intro x
        have hx := hrec.2.2.2 x
        unfold covers coveredBy at hx ⊢
        constructor
        · rintro (h | ⟨i, hi, hc⟩)
          · exact ⟨prev, List.mem_cons_self _ _, h⟩
          · rcases List.mem_cons.mp hi with rfl | hi
            · rcases hx.mp (Or.inl hc) with ⟨j, hj, hcj⟩
              exact ⟨j, List.mem_cons_of_mem prev hj, hcj⟩
            · rcases hx.mp (Or.inr ⟨i, hi, hc⟩) with ⟨j, hj, hcj⟩
              exact ⟨j, List.mem_cons_of_mem prev hj, hcj⟩
        · rintro ⟨i, hi, hc⟩
          rcases List.mem_cons.mp hi with rfl | hi
          · exact Or.inl hc
          · rcases hx.mpr ⟨i, hi, hc⟩ with h | ⟨j, hj, hcj⟩
            · exact Or.inr ⟨cur, List.mem_cons_self cur rest, h⟩
            · exact Or.inr ⟨j, List.mem_cons_of_mem cur hj, hcj⟩

/-- **C6** On inputs whose intervals all satisfy `end > start`,
`mergeBusyIntervals` returns positive intervals sorted by start in which
each interval's start is strictly after the previous interval's end (no
overlaps, no adjacency), covering exactly the same instants as the
input. -/
theorem mergeBusyIntervals_spec (l : List BusyInterval)
    (hpos : ∀ i ∈ l, i.start < i.stop) :
    (∀ i ∈ mergeBusyIntervals l, i.start < i.stop) ∧
      List.Pairwise (fun a b => a.stop < b.start) (mergeBusyIntervals l) ∧
      List.Pairwise (fun a b => a.start < b.start) (mergeBusyIntervals l) ∧
      (∀ x : Int, coveredBy l x ↔ coveredBy (mergeBusyIntervals l) x) := by
  rw [mergeBusyIntervals]
  rcases hsort : sortByStart l with _ | ⟨first, rest⟩
  · have hpermNil : (([] : List BusyInterval)).Perm l := by
      rw [← hsort]; exact sortByStart_perm l
    have hnil : l = [] := hpermNil.symm.eq_nil
    subst hnil
    simp [coveredBy]
  · have hperm : (first :: rest).Perm l := by
      rw [← hsort]; exact sortByStart_perm l
    have hsorted := sortByStart_sorted l
    rw [hsort, List.pairwise_cons] at hsorted
    have hspec := mergeLoop_spec rest first
      (hpos first (hperm.mem_iff.mp (List.mem_cons_self first rest)))
      (fun i hi => hpos i (hperm.mem_iff.mp (List.mem_cons_of_mem first hi)))
      hsorted.1 hsorted.2
    refine ⟨hspec.1, hspec.2.1, ?_, ?_⟩
    · exact hspec.2.1.imp_of_mem (fun ha hb hab =>
        lt_trans (hspec.1 _ ha) hab)
    · intro x
      rw [coveredBy_perm hperm.symm x]
      rw [show coveredBy (first :: rest) x ↔ covers first x ∨ coveredBy rest x by
        unfold coveredBy
        constructor
        · rintro ⟨i, hi, hc⟩
          rcases List.mem_cons.mp hi with rfl | hi
          · exact Or.inl hc
          · exact Or.inr ⟨i, hi, hc⟩
        · rintro (hc | ⟨i, hi, hc⟩)
          · exact ⟨first, List.mem_cons_self _ _, hc⟩
          · exact ⟨i, List.mem_cons_of_mem _ hi, hc⟩]
      exact hspec.2.2.2 x

/-- Witness for C6 at concrete inputs
(`[0,5) [3,7) [7,9) [20,25)` merges to `[0,9) [20,25)`). -/
theorem mergeBusyIntervals_spec_witness :
    (∀ i ∈ mergeBusyIntervals
        [⟨0, 5⟩, ⟨3, 7⟩, ⟨7, 9⟩, ⟨20, 25⟩], i.start < i.stop) ∧
      List.Pairwise (fun a b => a.stop < b.start)
        (mergeBusyIntervals [⟨0, 5⟩, ⟨3, 7⟩, ⟨7, 9⟩, ⟨20, 25⟩]) ∧
      List.Pairwise (fun a b => a.start < b.start)
        (mergeBusyIntervals [⟨0, 5⟩, ⟨3, 7⟩, ⟨7, 9⟩, ⟨20, 25⟩]) ∧
      (∀ x : Int, coveredBy [⟨0, 5⟩, ⟨3, 7⟩, ⟨7, 9⟩, ⟨20, 25⟩] x ↔
        coveredBy (mergeBusyIntervals [⟨0, 5⟩, ⟨3, 7⟩, ⟨7, 9⟩, ⟨20, 25⟩]) x) :=
  mergeBusyIntervals_spec [⟨0, 5⟩, ⟨3, 7⟩, ⟨7, 9⟩, ⟨20, 25⟩] (by decide)

/-! ## C8 — the availability resolver falls back instead of throwing -/

/-- **C8** For every configured meeting type, when the live-calendar
path raises any error `e`, `getAvailabilityWithFallback` returns (never
throws) a result with `fallback = true`, `source = "mock"`, the mock
slot set, and the message of the causing error
(`messageOfJsError (.jsError m) = m` for an `Error` instance carrying
message `m`). -/
theorem availability_fallback_on_error (M : JsModel) (cfg : SlotsConfig)
    (nowUtc : Int) (e : JsError) (meetingTypeId : Str) (mt : MeetingType)
    (hmt : getMeetingTypeById cfg meetingTypeId = some mt) :
    getAvailabilityWithFallback M cfg nowUtc (.error e) meetingTypeId =
      { slotsByDate := getMockSlotsByDate M cfg nowUtc mt.id, source := .mock,
        fallback := true, message := some (messageOfJsError e) } := by
  have hid : mt.id = meetingTypeId := by
    have h := List.find?_some hmt
    simpa using h
  simp only [getAvailabilityWithFallback, hmt, getAvailabilityByDate.eq_def,
    show getMeetingTypeById cfg mt.id = some mt by rw [hid]; exact hmt]

/-- Witness for C8 at concrete inputs. -/
theorem availability_fallback_on_error_witness :
    getAvailabilityWithFallback refModel sampleCfg 0
        (.error (.jsError "boom".data)) "intro-30".data =
      { slotsByDate := getMockSlotsByDate refModel sampleCfg 0
          sampleMeetingType.id, source := .mock,
        fallback := true,
        message := some (messageOfJsError (.jsError "boom".data)) } :=
  availability_fallback_on_error refModel sampleCfg 0 (.jsError "boom".data)
    "intro-30".data sampleMeetingType (by decide)

/-! ## C9 — a no-op reschedule is rejected with no calendar mutation -/

/-- **C9** For every verified reschedule token carrying a `slotStart`, a
PATCH request whose requested `slot.start` equals that `slotStart` is
rejected with status `unchanged` (HTTP 400) and issues no
`updateCalendarEvent` call. -/
theorem patch_unchanged_no_mutation (ctx : PatchCtx) (req : RescheduleRequest)
    (decoded verified : SignedLinkPayload) (meetingType : MeetingType) (s : Str)
    (hdec : decodeSignedLinkPayload ctx.M req.token = some decoded)
    (hact : decoded.action = "reschedule".data)
    (hver : verifySignedLink ctx.M ctx.env ctx.now req.token = .ok (some verified))
    (hmt : getMeetingTypeById ctx.cfg verified.meetingTypeId = some meetingType)
    (hslot : decoded.slotStart = some s)
    (hs : s ≠ [])
    (heq : s = req.slotStart) :
    PATCH ctx (some req) =
      .ok { status := .unchanged, httpStatus := 400, updateCalls := [] } := by
  simp only [PATCH, hdec, hver, hmt, hslot]
  rw [if_neg (by simp [hact])]
  rw [if_pos (decide_eq_true ⟨hs, heq⟩)]

/-- The payload of the C9 witness token. -/
def c9Payload : SignedLinkPayload :=
  { action := "reschedule".data, meetingTypeId := "intro-30".data,
    eventId := "evt-123".data, guestEmail := "g@example.com".data,
    expiresAt := refToISO 9, slotStart := some (refToISO 5),
    slotEnd := some (refToISO 6) }

/-- The C9 witness token. -/
def c9Token : Str :=
  match signLinkPayload refModel ⟨some sampleSecret⟩ c9Payload with
  | .ok t => t
  | .error _ => []

/-- The C9 witness request context. -/
def c9Ctx : PatchCtx :=
  { M := refModel, env := ⟨some sampleSecret⟩, cfg := sampleCfg, now := 3,
    calendarIds := .ok ["primary".data], freeBusy := .ok [], aliasStore := [],
    aliasCands := [], absUrl := id, update1 := .error .nonError,
    update2 := .error .nonError }

/-- The C9 witness request body: `slot.start` equals the token's
`slotStart`. -/
def c9Req : RescheduleRequest :=
  { token := c9Token, slotStart := refToISO 5, slotStop := refToISO 6 }

/-- Witness for C9 at concrete inputs. -/
theorem patch_unchanged_no_mutation_witness :
    PATCH c9Ctx (some c9Req) =
      .ok { status := .unchanged, httpStatus := 400, updateCalls := [] } :=
  patch_unchanged_no_mutation c9Ctx c9Req c9Payload c9Payload sampleMeetingType
    (refToISO 5) (by rfl) (by rfl) (by rfl) (by rfl) (by rfl)
    (by decide) (by rfl)

end Scheduling
